import Mathlib

/-!
Verification development for the r2-tiktok-upload worker.

The TypeScript sources (src/signer.ts, src/index.ts) are shallowly embedded
below.  JavaScript strings are modelled as Lean strings manipulated through
their character lists; the WebCrypto primitives (SHA-256, HMAC) are abstracted
as function parameters since no claim depends on digest values; the Cloudflare
KV namespace is modelled as an association list from keys to stored values
together with the TTL passed at write time.  Fallible operations return
Option or Except.
-/

namespace R2T

/-- Concatenation of the lists produced by applying a function to each element
(the shape of JavaScript flatMap, used for character-level encoders). -/
def flat (f : α → List β) : List α → List β
  | [] => []
  | a :: as => f a ++ flat f as

/-- JavaScript truthiness of a possibly-absent string value: absent, or the
empty string, is falsy. -/
def jsTruthy : Option String → Bool
  | some s => s ≠ ""
  | none => false

/-- Nullish coalescing on optional strings: the JS expression a ?? b. -/
def jsCoalesce (a b : Option String) : Option String :=
  match a with
  | some x => some x
  | none => b

/-- Code-unit comparison of strings as performed by the default JS
Array.prototype.sort comparator (all keys compared here are ASCII, where
code units and code points agree). -/
def lexLe : List Char → List Char → Bool
  | [], _ => true
  | _ :: _, [] => false
  | a :: as, b :: bs =>
    if a.toNat < b.toNat then true
    else if b.toNat < a.toNat then false
    else lexLe as bs

/-- Uppercase hex digit of a nibble, as produced by percent-encoders. -/
def hexUpper (n : Nat) : Char :=
  Char.ofNat (if n < 10 then 48 + n else 55 + n)

/-- Value of a hex digit given as a byte (0-9, A-F, a-f), none otherwise. -/
def hexVal (n : Nat) : Option Nat :=
  if 48 ≤ n ∧ n ≤ 57 then some (n - 48)
  else if 65 ≤ n ∧ n ≤ 70 then some (n - 55)
  else if 97 ≤ n ∧ n ≤ 102 then some (n - 87)
  else none

/-- UTF-8 bytes of a code point. -/
def utf8Bytes (n : Nat) : List Nat :=
  if n < 128 then [n]
  else if n < 2048 then [192 + n / 64, 128 + n % 64]
  else if n < 65536 then [224 + n / 4096, 128 + (n / 64) % 64, 128 + n % 64]
  else [240 + n / 262144, 128 + (n / 4096) % 64, 128 + (n / 64) % 64, 128 + n % 64]

/-- UTF-8 bytes of a character. -/
def charBytes (c : Char) : List Nat := utf8Bytes c.toNat

/-- UTF-8 bytes of a character list. -/
def strBytes (cs : List Char) : List Nat := flat charBytes cs

/-- Characters left unescaped by JS encodeURIComponent:
A-Z a-z 0-9 - _ . ! ~ * and apostrophe and parentheses. -/
def isUnreservedURI (n : Nat) : Bool :=
  (65 ≤ n && n ≤ 90) || (97 ≤ n && n ≤ 122) || (48 ≤ n && n ≤ 57) ||
  n == 45 || n == 95 || n == 46 || n == 33 || n == 126 || n == 42 ||
  n == 39 || n == 40 || n == 41

/-- Percent-escape of one byte, e.g. 47 becomes the three characters of %2F. -/
def pctTriple (b : Nat) : List Char :=
  [Char.ofNat 37, hexUpper (b / 16), hexUpper (b % 16)]

/-- Encoding of one character under encodeURIComponent. -/
def encChar (c : Char) : List Char :=
  if isUnreservedURI c.toNat then [c] else flat pctTriple (charBytes c)

/-- Model of JS encodeURIComponent. -/
def encodeURIComponent (s : String) : String := ⟨flat encChar s.data⟩

/-- Percent-decoding pass of decodeURIComponent, on UTF-8 bytes: each
percent-escape is replaced by the escaped byte; a malformed escape makes the
whole decode fail (URIError). -/
def pctDecodeBytes : List Nat → Option (List Nat)
  | [] => some []
  | b :: rest =>
    if b = 37 then
      match rest with
      | h1 :: h2 :: rest2 =>
        match hexVal h1, hexVal h2 with
        | some v1, some v2 => (pctDecodeBytes rest2).map (fun l => (16 * v1 + v2) :: l)
        | _, _ => none
      | _ => none
    else (pctDecodeBytes rest).map (fun l => b :: l)

/-- Whether a byte is a UTF-8 continuation byte. -/
def isContByte (n : Nat) : Bool := 128 ≤ n && n ≤ 191

/-- One step of strict UTF-8 decoding: decode the leading code point of the
byte list and return it with the remaining bytes. Overlong forms, surrogates
and values past U+10FFFF are rejected, as decodeURIComponent rejects them for
escape sequences. -/
def utf8Step : List Nat → Option (Char × List Nat)
  | [] => none
  | b :: rest =>
    if b < 128 then some (Char.ofNat b, rest)
    else if b < 194 then none
    else if b < 224 then
      if 1 ≤ rest.length && isContByte (rest.headD 0) then
        some (Char.ofNat ((b - 192) * 64 + (rest.headD 0 - 128)), rest.tail)
      else none
    else if b < 240 then
      let c1 := rest.headD 0
      let c2 := rest.tail.headD 0
      let n := (b - 224) * 4096 + (c1 - 128) * 64 + (c2 - 128)
      if 2 ≤ rest.length && isContByte c1 && isContByte c2 && decide (2048 ≤ n) &&
          !(decide (55296 ≤ n) && decide (n ≤ 57343)) then
        some (Char.ofNat n, rest.tail.tail)
      else none
    else if b < 245 then
      let c1 := rest.headD 0
      let c2 := rest.tail.headD 0
      let c3 := rest.tail.tail.headD 0
      let n := (b - 240) * 262144 + (c1 - 128) * 4096 + (c2 - 128) * 64 + (c3 - 128)
      if 3 ≤ rest.length && isContByte c1 && isContByte c2 && isContByte c3 &&
          decide (65536 ≤ n) && decide (n ≤ 1114111) then
        some (Char.ofNat n, rest.tail.tail.tail)
      else none
    else none

/-- Strict UTF-8 decoder, driven by a fuel counter; each decoded code point
consumes at least one byte, so fuel equal to the byte count suffices. -/
def utf8DecodeGo : Nat → List Nat → Option (List Char)
  | _, [] => some []
  | 0, _ :: _ => none
  | fuel + 1, b :: rest =>
    (utf8Step (b :: rest)).bind
      (fun p => (utf8DecodeGo fuel p.2).map (fun cs => p.1 :: cs))

/-- Strict UTF-8 decoder (rejects overlong forms, surrogates and values past
U+10FFFF, as decodeURIComponent does for escape sequences). -/
def utf8Decode (l : List Nat) : Option (List Char) := utf8DecodeGo l.length l

/-- Model of JS decodeURIComponent; none models a thrown URIError. -/
def decodeURIComponent (s : String) : Option String :=
  match pctDecodeBytes (strBytes s.data) with
  | none => none
  | some bs => (utf8Decode bs).map (fun cs => ⟨cs⟩)

/-- String.prototype.split on the slash character. -/
def splitOnSlash : List Char → List (List Char)
  | [] => [[]]
  | c :: rest =>
    if c == '/' then [] :: splitOnSlash rest
    else
      match splitOnSlash rest with
      | g :: gs => (c :: g) :: gs
      | [] => [[c]]

/-- Array.prototype.join with a slash separator. -/
def joinSlash : List (List Char) → List Char
  | [] => []
  | [s] => s
  | s :: rest => s ++ '/' :: joinSlash rest

/-- Array.prototype.join with an arbitrary string separator. -/
def joinSep (sep : String) : List String → String
  | [] => ""
  | [s] => s
  | s :: rest => s ++ sep ++ joinSep sep rest

/-- Decimal digits of a natural number, with structural fuel (any fuel above
the number computes the digits). -/
def decDigitsGo : Nat → Nat → List Char
  | 0, _ => []
  | fuel + 1, n =>
    if n < 10 then [Char.ofNat (48 + n)]
    else decDigitsGo fuel (n / 10) ++ [Char.ofNat (48 + n % 10)]

/-- String(n) for a natural number (the JS decimal conversion used for the
counters and expiry values written by this code). -/
def natStr (n : Nat) : String := ⟨decDigitsGo (n + 1) n⟩

/-- Character-level description of encodePathPreservingSlashes: slashes kept,
every other character encoded with encodeURIComponent. -/
def encPChar (c : Char) : List Char :=
  if c == '/' then [c] else encChar c

/-- Character list of an encoded path; proved equal to the split-encode-join
form of the source. -/
def encPathChars (cs : List Char) : List Char := flat encPChar cs

/-! URL pathname model (WHATWG URL parsing, as performed by the Workers
runtime for new URL(raw).pathname, restricted to absolute https URLs, which
is the shape of every URL the signer produces). -/

/-- Percent-encoding of one character under the WHATWG path percent-encode
set (C0 controls, DEL and above, space, quote, hash, angle brackets,
question mark, backtick and curly brackets). -/
def pathEncChar (c : Char) : List Char :=
  let n := c.toNat
  if n ≤ 31 || 127 ≤ n || n == 32 || n == 34 || n == 35 || n == 60 ||
      n == 62 || n == 63 || n == 96 || n == 123 || n == 125 then
    flat pctTriple (charBytes c)
  else [c]

/-- Normalisation used to recognise dot path segments: the escape %2e (either
case) counts as a dot. -/
def dotNorm : List Char → List Char
  | [] => []
  | [c] => [c]
  | [c, c2] => if c == '%' then [c, c2] else c :: dotNorm [c2]
  | c :: c2 :: c3 :: rest =>
    if c == '%' then
      if c2 == '2' && (c3 == 'e' || c3 == 'E') then '.' :: dotNorm rest
      else c :: dotNorm (c2 :: c3 :: rest)
    else c :: dotNorm (c2 :: c3 :: rest)

/-- Single-dot path segment test of the URL standard. -/
def isSingleDot (s : List Char) : Bool := dotNorm s == ['.']

/-- Double-dot path segment test of the URL standard. -/
def isDoubleDot (s : List Char) : Bool := dotNorm s == ['.', '.']

/-- Path-state processing of the URL standard: dot segments are dropped,
double-dot segments pop the previous segment, and a trailing dot segment
leaves a trailing empty segment. The accumulator holds the segments seen so
far in reverse. -/
def procSegs (acc : List (List Char)) : List (List Char) → List (List Char)
  | [] => acc.reverse
  | [s] =>
    if isDoubleDot s then (acc.drop 1).reverse ++ [[]]
    else if isSingleDot s then acc.reverse ++ [[]]
    else acc.reverse ++ [s]
  | s :: rest =>
    if isDoubleDot s then procSegs (acc.drop 1) rest
    else if isSingleDot s then procSegs acc rest
    else procSegs (s :: acc) rest

/-- Serialisation of a URL path: a slash before every segment. -/
def serializePath (segs : List (List Char)) : List Char :=
  flat (fun s => '/' :: s) segs

/-- Characters ending the authority component of an absolute URL. -/
def isAuthorityEnd (c : Char) : Bool :=
  c == '/' || c == '\\' || c == '?' || c == '#'

/-- Model of new URL(rawUrl).pathname for absolute https URLs; none models a
thrown TypeError (non-https input or empty host). Backslashes separate path
segments like slashes, dot segments are processed, and path characters are
percent-encoded with the path percent-encode set. -/
def urlPathname (rawUrl : String) : Option String :=
  let cs := rawUrl.data
  if "https://".data.isPrefixOf cs then
    let rest := cs.drop 8
    let auth := rest.takeWhile (fun c => !isAuthorityEnd c)
    if auth.isEmpty then none
    else
      let after := rest.dropWhile (fun c => !isAuthorityEnd c)
      let rawPath := (after.takeWhile (fun c => !(c == '?' || c == '#'))).map
        (fun c => if c == '\\' then '/' else c)
      match rawPath with
      | [] => some "/"
      | _ :: pr =>
        some ⟨serializePath ((procSegs [] (splitOnSlash pr)).map (flat pathEncChar))⟩
  else none

/-! Embedding of src/signer.ts (the manual SigV4 variant). The WebCrypto
digest and HMAC primitives are abstracted into a SigCrypto record of opaque
string functions: no claim depends on digest values, only on the strings fed
to them and on the URL shape around them. The current UTC date and datetime
strings produced by toAmzDate, and therefore the signing instant, are
parameters. -/

/-- Abstract cryptographic primitives used by the signer. -/
structure SigCrypto where
  sha256Hex : String → String
  hmac : String → String → String
  hexOf : String → String

/-- Model of encodePathPreservingSlashes: split on slashes, percent-encode
each segment with encodeURIComponent, rejoin with slashes. -/
def encodePathPreservingSlashes (p : String) : String :=
  ⟨joinSlash ((splitOnSlash p.data).map (fun seg => flat encChar seg))⟩

/-- Query parameter set assembled by presignGet before sorting (the raw
values; keys and values are percent-encoded when the canonical query is
built). -/
def baseQuery (credential datetime : String) (expires : Nat) : List (String × String) :=
  [("X-Amz-Algorithm", "AWS4-HMAC-SHA256"),
   ("X-Amz-Credential", credential),
   ("X-Amz-Date", datetime),
   ("X-Amz-Expires", natStr expires),
   ("X-Amz-SignedHeaders", "host"),
   ("x-id", "GetObject")]

/-- Insertion into a list sorted by JS code-unit string order. -/
def insertKey (s : String) : List String → List String
  | [] => [s]
  | t :: ts => if lexLe s.data t.data then s :: t :: ts else t :: insertKey s ts

/-- Sorting by JS code-unit string order (Object.keys(...).sort()). -/
def sortKeys : List String → List String
  | [] => []
  | k :: ks => insertKey k (sortKeys ks)

/-- Canonical query string of presignGet: keys sorted, each key and value
percent-encoded with encodeURIComponent, joined with ampersands and equal
signs. -/
def canonicalQuery (credential datetime : String) (expires : Nat) : String :=
  let q := baseQuery credential datetime expires
  joinSep "&" ((sortKeys (q.map Prod.fst)).map (fun k =>
    encodeURIComponent k ++ "=" ++ encodeURIComponent ((q.lookup k).getD "")))

/-- Canonical request of presignGet: method, canonical URI, canonical query,
canonical headers (host only, with the trailing newline of the source),
signed header list, and the UNSIGNED-PAYLOAD placeholder, joined by
newlines. -/
def canonicalRequestOf (canonicalUri cq host : String) : String :=
  joinSep "\n" ["GET", canonicalUri, cq, "host:" ++ host ++ "\n", "host", "UNSIGNED-PAYLOAD"]

/-- Model of presignGet from src/signer.ts: validates the key and expiry,
builds the canonical request and string-to-sign, derives the signing key by
the four-level HMAC chain, and returns the presigned URL. Errors model
thrown exceptions (String(err) form). -/
def presignGet (crypto : SigCrypto) (accessKeyId secret host date datetime : String)
    (key : String) (expires : Nat) : Except String String :=
  if key = "" then .error "Error: key is required"
  else if expires > 604800 then .error "Error: expires must be <= 604800 (7 days)"
  else
    let credentialScope := date ++ "/auto/s3/aws4_request"
    let credential := accessKeyId ++ "/" ++ credentialScope
    let canonicalUri := "/" ++ encodePathPreservingSlashes key
    let cq := canonicalQuery credential datetime expires
    let canonicalRequest := canonicalRequestOf canonicalUri cq host
    let stringToSign := joinSep "\n"
      ["AWS4-HMAC-SHA256", datetime, credentialScope, crypto.sha256Hex canonicalRequest]
    let kDate := crypto.hmac ("AWS4" ++ secret) date
    let kRegion := crypto.hmac kDate "auto"
    let kService := crypto.hmac kRegion "s3"
    let kSigning := crypto.hmac kService "aws4_request"
    let signature := crypto.hexOf (crypto.hmac kSigning stringToSign)
    .ok ("https://" ++ host ++ canonicalUri ++ "?" ++ cq ++ "&X-Amz-Signature=" ++ signature)

/-- Model of extractKeyFromUrl: parse the URL, strip leading slashes from the
pathname, percent-decode it, and strip a leading bucket segment. -/
def extractKeyFromUrl (bucket : String) (rawUrl : String) : Option String :=
  match urlPathname rawUrl with
  | none => none
  | some pn =>
    match decodeURIComponent ⟨pn.data.dropWhile (fun c => c == '/')⟩ with
    | none => none
    | some path =>
      some (if (bucket ++ "/").data.isPrefixOf path.data then
              ⟨path.data.drop (bucket.data.length + 1)⟩
            else path)

/-- Model of resolveAndSign: a truthy id is mapped to the key id.mp4, else a
truthy url is run through extractKeyFromUrl; a missing or empty key throws;
the key is then presigned with the default 7-day expiry. -/
def resolveAndSign (crypto : SigCrypto) (accessKeyId secret bucket host date datetime : String)
    (id u : Option String) : Except String String :=
  let keyRes : Except String (Option String) :=
    if jsTruthy id then .ok (some (id.getD "" ++ ".mp4"))
    else if jsTruthy u then
      match extractKeyFromUrl bucket (u.getD "") with
      | some k => .ok (some k)
      | none => .error "TypeError: Invalid URL string."
    else .ok none
  match keyRes with
  | .error e => .error e
  | .ok none => .error "Error: Provide either \x27id\x27 or \x27url\x27"
  | .ok (some k) =>
    if k = "" then .error "Error: Provide either \x27id\x27 or \x27url\x27"
    else presignGet crypto accessKeyId secret host date datetime k 604800

/-! Embedding of src/index.ts (the per-account variant whose routes are
/webhook, /callback, /keys/new and whose scheduled job is purgeSelective).
Parsed JSON values are modelled by the Json type below; KV values are
modelled by StoredVal, which records the shape a value was written with
(JSON.stringify of a record, or a plain string). -/

mutual
/-- Parsed JSON values (arrays are not needed by any modelled code path). -/
inductive Json where
  | null
  | jbool (b : Bool)
  | num (n : Int)
  | str (s : String)
  | obj (fields : JFields)
deriving DecidableEq
/-- Ordered field list of a JSON object. -/
inductive JFields where
  | nil
  | fcons (k : String) (v : Json) (rest : JFields)
deriving DecidableEq
end

/-- Field list built from a Lean list. -/
def jf : List (String × Json) → JFields
  | [] => .nil
  | (k, v) :: rest => .fcons k v (jf rest)

/-- Property access on a JSON object value (undefined is none). -/
def jget (j : Json) (k : String) : Option Json :=
  match j with
  | .obj fs => go fs
  | _ => none
where
  go : JFields → Option Json
    | .nil => none
    | .fcons k2 v rest => if k2 = k then some v else go rest

/-- Nullish coalescing step on a JSON property: null behaves like absent. -/
def jnn : Option Json → Option Json
  | some .null => none
  | x => x

/-- Fields of an OAuth token record / token endpoint response that the code
reads. JSON fields not present are none. -/
structure TokenRecord where
  access_token : Option String
  refresh_token : Option String
  expires_in : Option Nat
  open_id : Option String
  obtained_at : Option Nat
deriving DecidableEq

/-- Fields of a stored API key record that the code reads. -/
structure ApiMeta where
  status : Option String
  open_id : Option String
  created_at : Option Nat
deriving DecidableEq

/-- Fields of a stored OAuth state record that the code reads; showId models
the JSON field named show (a Lean keyword). -/
structure StateInfo where
  showId : Option String
deriving DecidableEq

/-- Value stored in the KV namespace, tagged with the shape it was written
with: a plain string (one-time reveal secrets, rate counters), or the
JSON.stringify of a token record, api key record, state record, or dispatch
result. -/
inductive StoredVal where
  | raw (s : String)
  | tok (t : TokenRecord)
  | api (a : ApiMeta)
  | st (i : StateInfo)
  | idem (j : Json)
deriving DecidableEq

/-- KV namespace model: entries of key, value and the TTL passed to put.
Key expiry itself is not modelled; the TTL is recorded so claims about it
can be checked. -/
abbrev KV := List (String × StoredVal × Option Nat)

/-- TOKENS_KV.get. -/
def kvGet (store : KV) (k : String) : Option StoredVal :=
  (store.find? (fun e => e.1 == k)).map (fun e => e.2.1)

/-- TTL recorded for a key by the last put. -/
def kvTtl (store : KV) (k : String) : Option (Option Nat) :=
  (store.find? (fun e => e.1 == k)).map (fun e => e.2.2)

/-- TOKENS_KV.put (expirationTtl optional). -/
def kvPut (store : KV) (k : String) (v : StoredVal) (ttl : Option Nat) : KV :=
  (k, v, ttl) :: store.filter (fun e => !(e.1 == k))

/-- TOKENS_KV.delete. -/
def kvDelete (store : KV) (k : String) : KV :=
  store.filter (fun e => !(e.1 == k))

/-- Truthiness of the string TOKENS_KV.get returns for a stored value: only
a stored empty string is falsy, since JSON.stringify of a record is never
empty. -/
def storedTruthy : Option StoredVal → Bool
  | none => false
  | some (.raw s) => s ≠ ""
  | some _ => true

/-- JSON.parse of a stored value read as an api key record; none models a
parse failure or a value of a different shape (whose fields read as
undefined). -/
def asApi : StoredVal → Option ApiMeta
  | .api a => some a
  | _ => none

/-- JSON.parse of a stored value read as a token record; none models a parse
failure. -/
def asTok : StoredVal → Option TokenRecord
  | .tok t => some t
  | _ => none

/-- JSON.parse of a stored value read as a state record (parse failures are
swallowed into an empty object by the callback). -/
def asState : StoredVal → Option StateInfo
  | .st i => some i
  | _ => none

/-- Raw string content of a stored value (the showkey reads), with the
source's fallback to the empty string. -/
def asRawStr : Option StoredVal → String
  | some (.raw s) => s
  | _ => ""

/-- Decimal parse of a rate counter value (parseInt(raw, 10) on the decimal
strings this code writes). -/
def parseDec (s : String) : Option Nat :=
  if s.data ≠ [] ∧ s.data.all (fun c => 48 ≤ c.toNat && c.toNat ≤ 57) then
    some (s.data.foldl (fun n c => n * 10 + (c.toNat - 48)) 0)
  else none


/-- Result record of the enforceRate helper. -/
structure RateResult where
  allowed : Bool
  remaining : Nat
  resetAt : Nat
deriving DecidableEq

/-- Model of enforceRate (KV-based fixed window): the window key is the
bucket key plus the window index; a counter at or above the limit denies
with remaining 0 and resetAt at the next window boundary; otherwise the
counter is incremented and persisted with TTL windowSec. Times are epoch
milliseconds; the source divides Date.now() by 1000 first. -/
def enforceRate (store : KV) (key : String) (limit windowSec : Nat) (nowMs : Nat) :
    RateResult × KV :=
  let now := nowMs / 1000
  let windowKey := key ++ ":" ++ natStr (now / windowSec)
  let count := match kvGet store windowKey with
    | some (.raw s) => (parseDec s).getD 0
    | _ => 0
  let resetAt := (now / windowSec + 1) * windowSec
  if count ≥ limit then
    ({ allowed := false, remaining := 0, resetAt := resetAt }, store)
  else
    ({ allowed := true, remaining := limit - (count + 1), resetAt := resetAt },
     kvPut store windowKey (.raw (natStr (count + 1))) (some windowSec))

/-- Token endpoint response to a refresh-grant POST: ok mirrors r.ok, data
the parsed JSON body on success, errBody the text body otherwise. -/
structure RefreshResp where
  ok : Bool
  data : TokenRecord
  errBody : String
deriving DecidableEq

/-- Object spread { ...tok, ...data, obtained_at: now }: fields present in
data overwrite those of tok, and obtained_at is set to now. -/
def mergeTok (tok data : TokenRecord) (now : Nat) : TokenRecord :=
  { access_token := (data.access_token).orElse (fun _ => tok.access_token)
    refresh_token := (data.refresh_token).orElse (fun _ => tok.refresh_token)
    expires_in := (data.expires_in).orElse (fun _ => tok.expires_in)
    open_id := (data.open_id).orElse (fun _ => tok.open_id)
    obtained_at := some now }

/-- Object spread { ...data, obtained_at: now }: the old record is discarded
entirely. -/
def replaceTok (data : TokenRecord) (now : Nat) : TokenRecord :=
  { data with obtained_at := some now }

/-- Model of getAccessTokenFor from src/index.ts. Returns the token result
(none models returning the undefined access_token field), the store after
the call, and whether a refresh exchange was performed. A missing record
throws; a fresh record with a truthy access_token is returned with no fetch
and no write; otherwise one refresh exchange happens and on success the
merged record { ...tok, ...data, obtained_at: now } is written back. -/
def getAccessTokenFor (store : KV) (kvKey : String) (nowMs : Nat) (resp : RefreshResp) :
    Except String (Option String) × KV × Bool :=
  match kvGet store kvKey with
  | none => (.error "Error: Not authorised for this account. Connect TikTok first.", store, false)
  | some v =>
    match asTok v with
    | none => (.error "SyntaxError: Unexpected token in JSON", store, false)
    | some tok =>
      let issuedAt := tok.obtained_at.getD nowMs
      let expiresIn := tok.expires_in.getD 3600
      let expiresAt : Int := (issuedAt : Int) + ((expiresIn : Int) - 120) * 1000
      if (nowMs : Int) < expiresAt ∧ jsTruthy tok.access_token then
        (.ok tok.access_token, store, false)
      else if resp.ok then
        let tok2 := mergeTok tok resp.data nowMs
        (.ok tok2.access_token, kvPut store kvKey (.tok tok2) none, true)
      else
        (.error ("Error: Refresh failed: " ++ resp.errBody), store, true)

/-- Model of the legacy getAccessToken from src/index.ts, which keeps one
global record under the fixed key tiktok_tokens and writes back
{ ...data, obtained_at: now } on refresh, discarding fields the server
response omits. -/
def getAccessToken (store : KV) (nowMs : Nat) (resp : RefreshResp) :
    Except String (Option String) × KV × Bool :=
  match kvGet store "tiktok_tokens" with
  | none => (.error "Error: Not authorised. Visit /login first.", store, false)
  | some v =>
    match asTok v with
    | none => (.error "SyntaxError: Unexpected token in JSON", store, false)
    | some tok =>
      let issuedAt := tok.obtained_at.getD nowMs
      let expiresIn := tok.expires_in.getD 3600
      let expiresAt : Int := (issuedAt : Int) + ((expiresIn : Int) - 120) * 1000
      if (nowMs : Int) < expiresAt ∧ jsTruthy tok.access_token then
        (.ok tok.access_token, store, false)
      else if resp.ok then
        let tok2 := replaceTok resp.data nowMs
        (.ok tok2.access_token, kvPut store "tiktok_tokens" (.tok tok2) none, true)
      else
        (.error ("Error: Refresh failed: " ++ resp.errBody), store, true)

/-- Decision of purgeSelective for a single scanned api: record, mirroring
the two deletion rules of the source: a pending record older than the
threshold, and (when removal of unmatched records is enabled) an active
record whose truthy open_id has no tok:open: record (a falsy stored empty
string counts as missing, matching the !tok test). Times in epoch ms. -/
def purgeShouldDelete (st : KV) (now : Nat) (maxPendingAgeMs : Nat) (rmUnmatched : Bool)
    (meta : ApiMeta) : Bool :=
  let createdAt := meta.created_at.getD 0
  let pendingOld := meta.status == some "pending" &&
    decide ((now : Int) - (createdAt : Int) > (maxPendingAgeMs : Int))
  let orphan := !pendingOld && rmUnmatched && meta.status == some "active" &&
    jsTruthy meta.open_id &&
    !storedTruthy (kvGet st ("tok:open:" ++ meta.open_id.getD ""))
  pendingOld || orphan

/-- Processing of one scanned key by purgeSelective: unreadable or
unparsable values are skipped; a record matching a deletion rule is deleted
(unless dry-run) and reported. -/
def purgeStep (now : Nat) (maxPendingAgeMs : Nat) (dryRun rmUnmatched : Bool)
    (st : KV) (key : String) : KV × Option String :=
  match kvGet st key with
  | some v =>
    match asApi v with
    | some meta =>
      if purgeShouldDelete st now maxPendingAgeMs rmUnmatched meta then
        (if dryRun then st else kvDelete st key, some key)
      else (st, none)
    | none => (st, none)
  | none => (st, none)

/-- Fold of purgeStep over the scanned keys, accumulating deletion
decisions. -/
def purgeRun (now : Nat) (maxPendingAgeMs : Nat) (dryRun rmUnmatched : Bool) :
    KV → List String → KV × List String
  | st, [] => (st, [])
  | st, k :: ks =>
    let (st2, d) := purgeStep now maxPendingAgeMs dryRun rmUnmatched st k
    let (st3, ds) := purgeRun now maxPendingAgeMs dryRun rmUnmatched st2 ks
    (st3, (match d with | some x => [x] | none => []) ++ ds)

/-- Model of purgeSelective from src/index.ts: list every key with prefix
api:, and apply the deletion rules to each; returns the resulting store and
the keys reported deleted. -/
def purgeSelective (store : KV) (now : Nat) (dryRun rmUnmatched : Bool)
    (maxPendingHours : Nat) : KV × List String :=
  let maxPendingAgeMs := maxPendingHours * 3600 * 1000
  let keys := (store.map (fun e => e.1)).filter (fun k => "api:".data.isPrefixOf k.data)
  purgeRun now maxPendingAgeMs dryRun rmUnmatched store keys

/-! Webhook dispatcher. -/

/-- Response of the downstream publish POST: ok mirrors initResp.ok,
bodyText the text body, parsed its JSON parse (none when tryParse returns
null). -/
structure PublishResp where
  ok : Bool
  bodyText : String
  parsed : Option Json
deriving DecidableEq

/-- JSON body { ok: false, error: m } used by error responses and by the
catch branch result. -/
def errJson (m : String) : Json :=
  Json.obj (jf [("ok", .jbool false), ("error", .str m)])

/-- Body of the 429 response built by ratelimitedJson. -/
def rateLimitedJson : Json :=
  Json.obj (jf [("ok", .jbool false), ("error", .str "rate_limited"),
    ("message", .str "Too many requests. Please try again later.")])

/-- Caption cleaning: strip NUL characters. -/
def stripNulChars (s : String) : String := ⟨s.data.filter (fun c => c.toNat ≠ 0)⟩

/-- ASCII lowercasing (toLowerCase on the mode strings used here). -/
def asciiLower (s : String) : String :=
  ⟨s.data.map (fun c => if 65 ≤ c.toNat ∧ c.toNat ≤ 90 then Char.ofNat (c.toNat + 32) else c)⟩

/-- post_info object built by the webhook. -/
def postInfoJson (cleanCaption publishMode : String) : Json :=
  Json.obj (jf ([("title", .str cleanCaption), ("privacy_level", .str "SELF_ONLY"),
    ("disable_duet", .jbool false), ("disable_stitch", .jbool false),
    ("disable_comment", .jbool false), ("brand_content_toggle", .jbool false),
    ("brand_organic_toggle", .jbool false)] ++
    (if publishMode = "draft" then [("is_draft", .jbool true)] else [])))

/-- source_info object built by the webhook. -/
def sourceInfoJson (videoUrl : String) : Json :=
  Json.obj (jf [("source", .str "PULL_FROM_URL"), ("video_url", .str videoUrl)])

/-- Result recorded for a successful publish call. -/
def successJson (publishMode : String) (pub : PublishResp) : Json :=
  Json.obj (jf [("ok", .jbool true),
    ("status", .str (if publishMode = "draft" then "draft_accepted" else "accepted")),
    ("tiktok", pub.parsed.getD (Json.obj (jf [("raw", .str pub.bodyText)])))])

/-- Result recorded for a rejected publish call: the error object is read
from payload.error (or the payload, or a message built from the body text),
with nullish-coalesced code and message, and log_id only when the payload
carries one (JSON.stringify drops the undefined field). -/
def failedJson (pub : PublishResp) : Json :=
  let errJ := match pub.parsed with
    | some p =>
      match jnn (jget p "error") with
      | some v => v
      | none => p
    | none => Json.obj (jf [("message", .str pub.bodyText)])
  let code := (jnn (jget errJ "code")).getD (.str "unknown_error")
  let message := (jnn (jget errJ "message")).getD (.str pub.bodyText)
  let logId := pub.parsed.bind (fun p => jget p "log_id")
  Json.obj (jf [("ok", .jbool false), ("status", .str "failed"),
    ("error", Json.obj (jf ([("code", code), ("message", message)] ++
      (match logId with | some v => [("log_id", v)] | none => []))))])

/-- Body of the dry-run response. -/
def dryRunJson (post_info source_info : Json) : Json :=
  Json.obj (jf [("ok", .jbool true), ("dryRun", .jbool true),
    ("request", Json.obj (jf [("post_info", post_info), ("source_info", source_info)]))])

/-- Environment bindings the webhook reads. -/
structure WebhookCfg where
  accessKeyId : String
  secretKey : String
  bucket : String
  host : String
deriving DecidableEq

/-- Parsed request of a webhook dispatch: the X-Api-Key header, the parsed
JSON body fields, and the dry-run flag of the route. -/
structure WebhookReq where
  apiKey : Option String
  id : Option String
  r2Url : Option String
  url : Option String
  caption : Option String
  idempotencyKey : Option String
  mode : Option String
  dry : Bool
deriving DecidableEq

/-- Observable outcome of one webhook call: HTTP status, JSON body, store
after the call, and whether the signer, a token refresh exchange, and the
downstream publish API were invoked. -/
structure WebhookOut where
  status : Nat
  body : Json
  store : KV
  signerCalled : Bool
  refreshCalled : Bool
  publishCalled : Bool
deriving DecidableEq

/-- Model of the webhook handler of src/index.ts (per-account variant).
Control flow, in source order: X-Api-Key presence check; enforceRate on the
key hash (60 per 60s); api key lookup and activation check; payload
validation (at least one of id, r2Url, url); idempotency replay; then the
try block: resolveAndSign, getAccessTokenFor, dry-run short circuit or the
publish POST; the result is stored under the idempotency key with a 24h TTL
and returned; a thrown error is caught, stored the same way, and returned
with status 500. The hash function (sha256Base64Url) and the two outbound
HTTP responses are parameters. -/
def webhook (crypto : SigCrypto) (hash : String → String) (cfg : WebhookCfg)
    (store : KV) (req : WebhookReq) (nowMs : Nat) (date datetime : String)
    (refresh : RefreshResp) (pub : PublishResp) : WebhookOut :=
  let apiKey := req.apiKey.getD ""
  if apiKey = "" then
    ⟨401, errJson "missing X-Api-Key", store, false, false, false⟩
  else
    let h := hash apiKey
    let rlPair := enforceRate store ("rk:webhook:" ++ h) 60 60 nowMs
    let store1 := rlPair.2
    if !rlPair.1.allowed then
      ⟨429, rateLimitedJson, store1, false, false, false⟩
    else
      match kvGet store1 ("api:" ++ h) with
      | none => ⟨401, errJson "unauthorised", store1, false, false, false⟩
      | some v =>
        let apiMeta := (asApi v).getD { status := none, open_id := none, created_at := none }
        if !(apiMeta.status == some "active" && jsTruthy apiMeta.open_id) then
          ⟨401, errJson "api key not activated (connect TikTok first)", store1, false, false, false⟩
        else
          let openId := apiMeta.open_id.getD ""
          let cleanCaption := stripNulChars (req.caption.getD "")
          let publishMode := asciiLower (req.mode.getD "publish")
          if !(jsTruthy req.id || jsTruthy req.r2Url || jsTruthy req.url) then
            ⟨400, errJson "Provide \x27id\x27 or \x27r2Url\x27/\x27url\x27", store1,
              false, false, false⟩
          else
            let idemK := req.idempotencyKey.getD ""
            let idemKey := "idem:" ++ openId ++ ":" ++ idemK
            match (if idemK ≠ "" then kvGet store1 idemKey else none) with
            | some (.idem j) => ⟨200, j, store1, false, false, false⟩
            | some _ =>
              ⟨500, errJson "SyntaxError: Unexpected token in JSON", store1, false, false, false⟩
            | none =>
              match resolveAndSign crypto cfg.accessKeyId cfg.secretKey cfg.bucket cfg.host
                  date datetime req.id (jsCoalesce req.r2Url req.url) with
              | .error e =>
                let result := errJson e
                let store2 := if idemK ≠ "" then kvPut store1 idemKey (.idem result) (some 86400)
                  else store1
                ⟨500, result, store2, true, false, false⟩
              | .ok videoUrl =>
                match getAccessTokenFor store1 ("tok:open:" ++ openId) nowMs refresh with
                | (.error e, store2, refreshed) =>
                  let result := errJson e
                  let store3 := if idemK ≠ "" then kvPut store2 idemKey (.idem result) (some 86400)
                    else store2
                  ⟨500, result, store3, true, refreshed, false⟩
                | (.ok _, store2, refreshed) =>
                  let post_info := postInfoJson cleanCaption publishMode
                  let source_info := sourceInfoJson videoUrl
                  if req.dry then
                    ⟨200, dryRunJson post_info source_info, store2, true, refreshed, false⟩
                  else
                    let result := if pub.ok then successJson publishMode pub else failedJson pub
                    let store3 := if idemK ≠ "" then
                        kvPut store2 idemKey (.idem result) (some 86400)
                      else store2
                    ⟨if pub.ok then 200 else 400, result, store3, true, refreshed, true⟩

/-- Outcome of the OAuth callback: HTTP status, whether the success page was
rendered, the one-time key revealed on the page (empty when none), and the
store after the call. -/
structure CallbackOut where
  status : Nat
  okPage : Bool
  apiKeyOnce : String
  store : KV
deriving DecidableEq

/-- Authorization-code exchange response, as for RefreshResp. -/
structure XchgResp where
  ok : Bool
  data : TokenRecord
  errBody : String
deriving DecidableEq

/-- Model of the callback handler of src/index.ts (per-account variant):
validates code and state, looks up the state record (never deleting it),
exchanges the code, stores the token record under tok:open: keyed by the
open_id of the response, and if the state carried a reveal ticket id whose
showkey: entry is still present, deletes that entry, activates the api key
record under the hash of the revealed secret, and shows the secret once
more. -/
def callback (hash : String → String) (store : KV) (code stateTok : Option String)
    (nowMs : Nat) (xchg : XchgResp) : CallbackOut :=
  if !(jsTruthy code) || !(jsTruthy stateTok) then ⟨400, false, "", store⟩
  else
    let statev := stateTok.getD ""
    let sv := kvGet store ("state:" ++ statev)
    if !storedTruthy sv then ⟨400, false, "", store⟩
    else
      let info := (asState (sv.getD (.raw ""))).getD { showId := none }
      if !xchg.ok then ⟨500, false, "", store⟩
      else
        let data := xchg.data
        let store1 := kvPut store ("tok:open:" ++ data.open_id.getD "undefined")
          (.tok (replaceTok data nowMs)) none
        match info.showId with
        | some s =>
          if s ≠ "" then
            let showKey := asRawStr (kvGet store1 ("showkey:" ++ s))
            if showKey ≠ "" then
              let store2 := kvDelete store1 ("showkey:" ++ s)
              let store3 := kvPut store2 ("api:" ++ hash showKey)
                (.api { status := some "active", open_id := data.open_id,
                        created_at := some nowMs }) none
              ⟨200, true, showKey, store3⟩
            else ⟨200, true, "", store1⟩
          else ⟨200, true, "", store1⟩
        | none => ⟨200, true, "", store1⟩

/-! Definitions supporting the claim statements. -/

/-- Modelled from the spec: the canonical query string claim C1 describes,
with exactly the five parameters X-Amz-Algorithm, X-Amz-Credential,
X-Amz-Date, X-Amz-Expires and X-Amz-SignedHeaders, sorted lexicographically
by name, each key and value percent-encoded independently, joined with
ampersands and equal signs. Stated for comparison against canonicalQuery,
which is translated from the source. -/
def specFiveParamQuery (credential datetime : String) (expires : Nat) : String :=
  joinSep "&" ([("X-Amz-Algorithm", "AWS4-HMAC-SHA256"),
    ("X-Amz-Credential", credential),
    ("X-Amz-Date", datetime),
    ("X-Amz-Expires", natStr expires),
    ("X-Amz-SignedHeaders", "host")].map (fun p =>
      encodeURIComponent p.1 ++ "=" ++ encodeURIComponent p.2))

/-- Round trip of claim C2: sign the key derived from an identifier and
extract the object key back from the produced URL. -/
def signThenExtract (crypto : SigCrypto) (accessKeyId secret bucket host date datetime : String)
    (id : String) : Option String :=
  match resolveAndSign crypto accessKeyId secret bucket host date datetime (some id) none with
  | .ok u => extractKeyFromUrl bucket u
  | .error _ => none

/-- Sequential enforceRate calls at the given instants, returning for each
call its result and the store it left behind. -/
def enforceRateTrace (key : String) (limit windowSec : Nat) :
    KV → List Nat → List (RateResult × KV)
  | _, [] => []
  | store, t :: ts =>
    let p := enforceRate store key limit windowSec t
    p :: enforceRateTrace key limit windowSec p.2 ts

/-! General lemmas about the embedding. -/

theorem charToNat_ofNat {n : Nat} (h : n.isValidChar) : (Char.ofNat n).toNat = n := by
  unfold Char.ofNat
  rw [dif_pos h]
  rfl

theorem charToNat_ofNat_small {n : Nat} (h : n < 55296) : (Char.ofNat n).toNat = n :=
  charToNat_ofNat (Or.inl h)

/-- Strings with a differing character at some position differ. -/
theorem str_ne_at (k : Nat) (s1 s2 : String) (h : s1.data[k]? ≠ s2.data[k]?) : s1 ≠ s2 :=
  fun e => h (congrArg (fun s => s.data[k]?) e)

theorem kvGet_put (st : KV) (k : String) (v : StoredVal) (t : Option Nat) (k2 : String) :
    kvGet (kvPut st k v t) k2 = if k2 = k then some v else kvGet st k2 := by
  by_cases hk : k2 = k
  · subst hk
    simp [kvGet, kvPut, List.find?_cons]
  · simp only [kvGet, kvPut, List.find?_cons]
    have hbk : (k == k2) = false := by simp [Ne.symm hk]
    rw [hbk]
    simp only [if_neg hk]
    induction st with
    | nil => rfl
    | cons e es ih =>
      by_cases he : e.1 == k2
      · have hek : (e.1 == k) = false := by
          have : e.1 = k2 := by simpa using he
          simp [this, hk]
        simp [List.filter_cons, hek, List.find?_cons, he]
      · by_cases hef : e.1 == k
        · simpa [List.filter_cons, hef, List.find?_cons, he] using ih
        · simpa [List.filter_cons, hef, List.find?_cons, he] using ih

theorem kvTtl_put (st : KV) (k : String) (v : StoredVal) (t : Option Nat) (k2 : String) :
    kvTtl (kvPut st k v t) k2 = if k2 = k then some t else kvTtl st k2 := by
  by_cases hk : k2 = k
  · subst hk
    simp [kvTtl, kvPut, List.find?_cons]
  · simp only [kvTtl, kvPut, List.find?_cons]
    have hbk : (k == k2) = false := by simp [Ne.symm hk]
    rw [hbk]
    simp only [if_neg hk]
    induction st with
    | nil => rfl
    | cons e es ih =>
      by_cases he : e.1 == k2
      · have hek : (e.1 == k) = false := by
          have : e.1 = k2 := by simpa using he
          simp [this, hk]
        simp [List.filter_cons, hek, List.find?_cons, he]
      · by_cases hef : e.1 == k
        · simpa [List.filter_cons, hef, List.find?_cons, he] using ih
        · simpa [List.filter_cons, hef, List.find?_cons, he] using ih

theorem kvGet_del (st : KV) (k k2 : String) :
    kvGet (kvDelete st k) k2 = if k2 = k then none else kvGet st k2 := by
  by_cases hk : k2 = k
  · subst hk
    simp only [kvGet, kvDelete, if_pos rfl]
    induction st with
    | nil => rfl
    | cons e es ih =>
      by_cases hef : e.1 == k2
      · simp [List.filter_cons, hef, ih]
      · simp [List.filter_cons, hef, List.find?_cons, ih]
  · simp only [kvGet, kvDelete, if_neg hk]
    induction st with
    | nil => rfl
    | cons e es ih =>
      by_cases he : e.1 == k2
      · have hek : (e.1 == k) = false := by
          have : e.1 = k2 := by simpa using he
          simp [this, hk]
        simp [List.filter_cons, hek, List.find?_cons, he]
      · by_cases hef : e.1 == k
        · simpa [List.filter_cons, hef, List.find?_cons, he] using ih
        · simpa [List.filter_cons, hef, List.find?_cons, he] using ih

theorem parseDec_natStr (n : Nat) : parseDec (natStr n) = some n := by
  have key : ∀ fuel n, n < fuel →
      decDigitsGo fuel n ≠ [] ∧
      (∀ c ∈ decDigitsGo fuel n, 48 ≤ c.toNat ∧ c.toNat ≤ 57) ∧
      (decDigitsGo fuel n).foldl (fun m c => m * 10 + (c.toNat - 48)) 0 = n := by
    intro fuel
    induction fuel with
    | zero => omega
    | succ f ih =>
      intro n hn
      by_cases h10 : n < 10
      · refine ⟨by simp [decDigitsGo, h10], ?_, ?_⟩
        · intro c hc
          simp [decDigitsGo, h10] at hc
          subst hc
          rw [charToNat_ofNat_small (by omega)]
          omega
        · simp [decDigitsGo, h10, charToNat_ofNat_small (show 48 + n < 55296 by omega)]
      · have hdiv : n / 10 < f := by
          have h1 : n / 10 < n := Nat.div_lt_self (by omega) (by omega)
          omega
        obtain ⟨h1, h2, h3⟩ := ih (n / 10) hdiv
        refine ⟨by simp [decDigitsGo, h10], ?_, ?_⟩
        · intro c hc
          simp only [decDigitsGo, if_neg h10, List.mem_append, List.mem_singleton] at hc
          rcases hc with hc | hc
          · exact h2 c hc
          · subst hc
            rw [charToNat_ofNat_small (by omega)]
            omega
        · simp only [decDigitsGo, if_neg h10, List.foldl_append, h3, List.foldl_cons,
            List.foldl_nil]
          rw [charToNat_ofNat_small (show 48 + n % 10 < 55296 by omega)]
          omega
  obtain ⟨h1, h2, h3⟩ := key (n + 1) n (by omega)
  have hdata : (natStr n).data = decDigitsGo (n + 1) n := rfl
  rw [parseDec, hdata, if_pos]
  · exact congrArg some h3
  · refine ⟨h1, ?_⟩
    rw [List.all_eq_true]
    intro c hc
    have := h2 c hc
    simp only [Bool.and_eq_true, decide_eq_true_eq]
    omega

theorem kvPut_put (st : KV) (k : String) (v1 v2 : StoredVal) (t1 t2 : Option Nat) :
    kvPut (kvPut st k v1 t1) k v2 t2 = kvPut st k v2 t2 := by
  simp [kvPut, List.filter_cons, List.filter_filter]

/-! Claim C1. -/

set_option maxRecDepth 8000 in
/-- Claim C1, counterexample: at a concrete credential, datetime and expiry,
the canonical query string the code builds is not the five-parameter string
the claim describes; it is that string with the additional parameter
x-id=GetObject appended. -/
theorem C1_counterexample :
    canonicalQuery "AKID/20250101/auto/s3/aws4_request" "20250101T000000Z" 604800 =
      specFiveParamQuery "AKID/20250101/auto/s3/aws4_request" "20250101T000000Z" 604800 ++
        "&x-id=GetObject" ∧
    canonicalQuery "AKID/20250101/auto/s3/aws4_request" "20250101T000000Z" 604800 ≠
      specFiveParamQuery "AKID/20250101/auto/s3/aws4_request" "20250101T000000Z" 604800 :=
  ⟨by decide, by decide⟩

/-- Claim C1, amended: for every credential, datetime and expiry, the
canonical query string built by presignGet (and hashed into the canonical
request) consists of exactly six parameters: the five the claim lists plus
x-id=GetObject, sorted lexicographically by parameter name, each key and
value percent-encoded independently, joined with ampersands and equal
signs. -/
theorem C1_canonical_query (credential datetime : String) (expires : Nat) :
    canonicalQuery credential datetime expires =
      joinSep "&"
        [encodeURIComponent "X-Amz-Algorithm" ++ "=" ++ encodeURIComponent "AWS4-HMAC-SHA256",
         encodeURIComponent "X-Amz-Credential" ++ "=" ++ encodeURIComponent credential,
         encodeURIComponent "X-Amz-Date" ++ "=" ++ encodeURIComponent datetime,
         encodeURIComponent "X-Amz-Expires" ++ "=" ++ encodeURIComponent (natStr expires),
         encodeURIComponent "X-Amz-SignedHeaders" ++ "=" ++ encodeURIComponent "host",
         encodeURIComponent "x-id" ++ "=" ++ encodeURIComponent "GetObject"] := rfl

/-! Claim C7. -/

theorem rate_trace_go (store : KV) (key : String) (limit windowSec w : Nat)
    (times : List Nat)
    (hsame : ∀ t ∈ times, t / 1000 / windowSec = w)
    (hfresh : kvGet store (key ++ ":" ++ natStr w) = none) :
    ∀ c, c ≤ limit →
      enforceRateTrace key limit windowSec
        (if c = 0 then store
         else kvPut store (key ++ ":" ++ natStr w) (.raw (natStr c)) (some windowSec)) times =
      (List.range times.length).map (fun i =>
        (if c + i < limit then
          { allowed := true, remaining := limit - (c + i + 1), resetAt := (w + 1) * windowSec }
         else
          { allowed := false, remaining := 0, resetAt := (w + 1) * windowSec },
         if min (c + i + 1) limit = 0 then store
         else kvPut store (key ++ ":" ++ natStr w) (.raw (natStr (min (c + i + 1) limit)))
           (some windowSec))) := by
  induction times with
  | nil => intro c _; rfl
  | cons t ts ih =>
    intro c hc
    have hw0 : t / 1000 / windowSec = w := hsame t (by simp)
    have hsame2 : ∀ u ∈ ts, u / 1000 / windowSec = w := fun u hu => hsame u (by simp [hu])
    have hcount :
        (match kvGet (if c = 0 then store
            else kvPut store (key ++ ":" ++ natStr w) (.raw (natStr c)) (some windowSec))
            (key ++ ":" ++ natStr w) with
          | some (.raw s) => (parseDec s).getD 0
          | _ => 0) = c := by
      by_cases hz : c = 0
      · simp [hz, hfresh]
      · simp [hz, kvGet_put, parseDec_natStr]
    rw [enforceRateTrace, enforceRate]
    simp only [hw0, hcount]
    by_cases hlt : c < limit
    · rw [if_neg (by omega)]
      have hput : kvPut (if c = 0 then store
            else kvPut store (key ++ ":" ++ natStr w) (.raw (natStr c)) (some windowSec))
            (key ++ ":" ++ natStr w) (.raw (natStr (c + 1))) (some windowSec) =
          (if c + 1 = 0 then store
           else kvPut store (key ++ ":" ++ natStr w) (.raw (natStr (c + 1))) (some windowSec)) := by
        by_cases hz : c = 0
        · simp [hz]
        · simp [hz, kvPut_put]
      simp only [hput]
      rw [ih hsame2 (c + 1) (by omega)]
      rw [List.length_cons, List.range_succ_eq_map, List.map_cons, List.map_map]
      simp only [List.cons.injEq, Prod.mk.injEq]
      refine ⟨⟨?_, ?_⟩, ?_⟩
      · rw [if_pos (show c + 0 < limit by omega)]
      · rw [show min (c + 0 + 1) limit = c + 1 by omega]
      · refine List.map_congr_left (fun i _ => ?_)
        simp only [Function.comp_apply, Nat.succ_eq_add_one]
        rw [show c + (i + 1) = c + 1 + i by omega]
    · rw [if_pos (by omega)]
      rw [ih hsame2 c hc]
      rw [List.length_cons, List.range_succ_eq_map, List.map_cons, List.map_map]
      simp only [List.cons.injEq, Prod.mk.injEq]
      refine ⟨⟨?_, ?_⟩, ?_⟩
      · rw [if_neg (show ¬ c + 0 < limit by omega)]
      · rw [show min (c + 0 + 1) limit = limit by omega,
          show c = limit by omega]
      · refine List.map_congr_left (fun i _ => ?_)
        simp only [Function.comp_apply, Nat.succ_eq_add_one]
        rw [if_neg (show ¬ c + i < limit by omega),
          if_neg (show ¬ c + (i + 1) < limit by omega),
          show min (c + i + 1) limit = limit by omega,
          show min (c + (i + 1) + 1) limit = limit by omega]

/-- Claim C7: starting with no counter for the window of index w, limit+1
sequential check calls inside that window produce allowed=true for the first
limit calls, each persisting the incremented counter with TTL equal to the
window length, and exactly one allowed=false result (the last), with
remaining 0 and resetAt at the next window boundary. -/
theorem C7_rate_fixed_window (store : KV) (key : String) (limit windowSec w : Nat)
    (times : List Nat)
    (hlen : times.length = limit + 1)
    (hsame : ∀ t ∈ times, t / 1000 / windowSec = w)
    (hfresh : kvGet store (key ++ ":" ++ natStr w) = none) :
    enforceRateTrace key limit windowSec store times =
      (List.range (limit + 1)).map (fun i =>
        (if i < limit then
          { allowed := true, remaining := limit - (i + 1), resetAt := (w + 1) * windowSec }
         else
          { allowed := false, remaining := 0, resetAt := (w + 1) * windowSec },
         if min (i + 1) limit = 0 then store
         else kvPut store (key ++ ":" ++ natStr w) (.raw (natStr (min (i + 1) limit)))
           (some windowSec))) := by
  have h := rate_trace_go store key limit windowSec w times hsame hfresh 0 (by omega)
  rw [if_pos rfl] at h
  rw [h, hlen]
  exact List.map_congr_left (fun i _ => by norm_num)

/-- Claim C7, witness: with limit 2 and a 60 second window, three calls in
window 0 give two allowed results with counters 1 and 2 persisted at TTL 60,
then one denial with remaining 0 and resetAt 60. -/
theorem C7_rate_fixed_window_witness :
    enforceRateTrace "rk:webhook:H" 2 60 [] [1000, 1500, 59000] =
      [({ allowed := true, remaining := 1, resetAt := 60 },
        [("rk:webhook:H:0", .raw "1", some 60)]),
       ({ allowed := true, remaining := 0, resetAt := 60 },
        [("rk:webhook:H:0", .raw "2", some 60)]),
       ({ allowed := false, remaining := 0, resetAt := 60 },
        [("rk:webhook:H:0", .raw "2", some 60)])] :=
  C7_rate_fixed_window [] "rk:webhook:H" 2 60 0 [1000, 1500, 59000]
    (by decide) (by decide) (by decide)

/-! Claim C3. -/

/-- Claim C3: for a stored token record with obtained_at t0, expires_in e and
a non-empty access_token, every getAccessTokenFor call strictly before
t0 + (e - 120) * 1000 milliseconds returns the stored access token unchanged
with no refresh exchange and no store write, and a call at or after that
boundary performs the refresh exchange. -/
theorem C3_token_freshness (store : KV) (kvKey : String) (tok : TokenRecord)
    (t0 e : Nat) (a : String) (nowMs : Nat) (resp : RefreshResp)
    (hrec : kvGet store kvKey = some (.tok tok))
    (hobt : tok.obtained_at = some t0)
    (hexp : tok.expires_in = some e)
    (hacc : tok.access_token = some a)
    (hane : a ≠ "") :
    (((nowMs : Int) < (t0 : Int) + ((e : Int) - 120) * 1000 →
        getAccessTokenFor store kvKey nowMs resp = (.ok (some a), store, false)) ∧
     ((t0 : Int) + ((e : Int) - 120) * 1000 ≤ (nowMs : Int) →
        (getAccessTokenFor store kvKey nowMs resp).2.2 = true)) := by
  constructor
  · intro hfresh
    rw [getAccessTokenFor, hrec]
    simp only [asTok, hobt, hexp, hacc, Option.getD_some]
    rw [if_pos ⟨hfresh, by simp [jsTruthy, hane]⟩]
  · intro hstale
    rw [getAccessTokenFor, hrec]
    simp only [asTok, hobt, hexp, hacc, Option.getD_some]
    rw [if_neg (by intro h; exact absurd h.1 (by omega))]
    by_cases hok : resp.ok
    · rw [if_pos hok]
    · rw [if_neg hok]

/-- Claim C3, witness: a record issued at time 0 with expires_in 3600 is
returned from the cache at 3479999 ms, and the call at 3480000 ms performs
the refresh exchange. -/
theorem C3_token_freshness_witness :
    (getAccessTokenFor [("k", .tok ⟨some "A", some "R", some 3600, none, some 0⟩, none)]
        "k" 3479999 ⟨true, ⟨none, none, none, none, none⟩, ""⟩ =
      (.ok (some "A"), [("k", .tok ⟨some "A", some "R", some 3600, none, some 0⟩, none)],
        false)) ∧
    (getAccessTokenFor [("k", .tok ⟨some "A", some "R", some 3600, none, some 0⟩, none)]
        "k" 3480000 ⟨true, ⟨none, none, none, none, none⟩, ""⟩).2.2 = true :=
  ⟨(C3_token_freshness [("k", .tok ⟨some "A", some "R", some 3600, none, some 0⟩, none)]
      "k" ⟨some "A", some "R", some 3600, none, some 0⟩ 0 3600 "A" 3479999
      ⟨true, ⟨none, none, none, none, none⟩, ""⟩ (by decide) rfl rfl rfl
      (by decide)).1 (by decide),
   (C3_token_freshness [("k", .tok ⟨some "A", some "R", some 3600, none, some 0⟩, none)]
      "k" ⟨some "A", some "R", some 3600, none, some 0⟩ 0 3600 "A" 3480000
      ⟨true, ⟨none, none, none, none, none⟩, ""⟩ (by decide) rfl rfl rfl
      (by decide)).2 (by decide)⟩

/-! Claim C6. -/

/-- Claim C6, counterexample: the legacy getAccessToken writes back
{ ...data, obtained_at } on refresh; with a stored refresh_token R and a
server response that omits refresh_token, the record written back has no
refresh_token at all, so the claim fails on getAccessToken. -/
theorem C6_counterexample :
    (getAccessToken [("tiktok_tokens", .tok ⟨some "old", some "R", some 3600, none, some 0⟩,
        none)] 10000000 ⟨true, ⟨some "new", none, some 7200, none, none⟩, ""⟩).2.1 =
      [("tiktok_tokens", .tok ⟨some "new", none, some 7200, none, some 10000000⟩, none)] ∧
    (some "R" : Option String) ≠ none := by
  exact ⟨by decide, by decide⟩

/-- Claim C6, amended: the preservation claim holds of getAccessTokenFor,
which writes { ...tok, ...data, obtained_at: now } on a successful refresh:
when the server omits refresh_token the stored refresh_token is preserved,
obtained_at is replaced by the call time, and every field present in the
server response overwrites the stored one. -/
theorem C6_refresh_merge (store : KV) (kvKey : String) (tok data : TokenRecord)
    (nowMs : Nat) (errB : String)
    (hrec : kvGet store kvKey = some (.tok tok))
    (hstale : ¬ (((nowMs : Int) < (tok.obtained_at.getD nowMs : Int) +
        ((tok.expires_in.getD 3600 : Int) - 120) * 1000) ∧ jsTruthy tok.access_token)) :
    getAccessTokenFor store kvKey nowMs ⟨true, data, errB⟩ =
      (.ok (mergeTok tok data nowMs).access_token,
       kvPut store kvKey (.tok (mergeTok tok data nowMs)) none, true) ∧
    (data.refresh_token = none →
      (mergeTok tok data nowMs).refresh_token = tok.refresh_token) ∧
    (mergeTok tok data nowMs).obtained_at = some nowMs ∧
    (∀ x, data.access_token = some x → (mergeTok tok data nowMs).access_token = some x) ∧
    (∀ x, data.refresh_token = some x → (mergeTok tok data nowMs).refresh_token = some x) ∧
    (∀ x, data.expires_in = some x → (mergeTok tok data nowMs).expires_in = some x) ∧
    (∀ x, data.open_id = some x → (mergeTok tok data nowMs).open_id = some x) := by
  refine ⟨?_, ?_, rfl, ?_, ?_, ?_, ?_⟩
  · rw [getAccessTokenFor, hrec]
    simp only [asTok]
    rw [if_neg hstale]
    rfl
  · intro h
    simp [mergeTok, h, Option.orElse]
  · intro x h
    simp [mergeTok, h, Option.orElse]
  · intro x h
    simp [mergeTok, h, Option.orElse]
  · intro x h
    simp [mergeTok, h, Option.orElse]
  · intro x h
    simp [mergeTok, h, Option.orElse]

/-- Claim C6, witness: a stale record with refresh_token R refreshed by a
response lacking refresh_token keeps R in the written record. -/
theorem C6_refresh_merge_witness :
    getAccessTokenFor [("tok:open:7788", .tok ⟨some "old", some "R", some 3600, none, some 0⟩,
        none)] "tok:open:7788" 10000000
        ⟨true, ⟨some "new", none, some 7200, none, none⟩, ""⟩ =
      (.ok (some "new"),
       [("tok:open:7788", .tok ⟨some "new", some "R", some 7200, none, some 10000000⟩, none)],
       true) ∧
    (mergeTok ⟨some "old", some "R", some 3600, none, some 0⟩
        ⟨some "new", none, some 7200, none, none⟩ 10000000).refresh_token = some "R" :=
  ⟨((C6_refresh_merge [("tok:open:7788", .tok ⟨some "old", some "R", some 3600, none, some 0⟩,
      none)] "tok:open:7788" ⟨some "old", some "R", some 3600, none, some 0⟩
      ⟨some "new", none, some 7200, none, none⟩ 10000000 "" (by decide) (by decide)).1),
   ((C6_refresh_merge [("tok:open:7788", .tok ⟨some "old", some "R", some 3600, none, some 0⟩,
      none)] "tok:open:7788" ⟨some "old", some "R", some 3600, none, some 0⟩
      ⟨some "new", none, some 7200, none, none⟩ 10000000 "" (by decide) (by decide)).2.1 rfl)⟩

/-! Claim C8. -/

theorem tok_key_not_api (x : String) :
    "api:".data.isPrefixOf ("tok:open:" ++ x).data = false := by
  rw [String.data_append]
  rfl

theorem purgeShouldDelete_congr (st1 st2 : KV) (now maxAge : Nat) (rm : Bool) (meta : ApiMeta)
    (h : kvGet st1 ("tok:open:" ++ meta.open_id.getD "") =
         kvGet st2 ("tok:open:" ++ meta.open_id.getD "")) :
    purgeShouldDelete st1 now maxAge rm meta = purgeShouldDelete st2 now maxAge rm meta := by
  simp only [purgeShouldDelete, h]

theorem purgeRun_char (store : KV) (now maxAge : Nat) :
    ∀ (keys : List String) (st : KV) (D : List String),
      (∀ k2, kvGet st k2 = if k2 ∈ D then none else kvGet store k2) →
      (∀ d ∈ D, "api:".data.isPrefixOf d.data) →
      (∀ k ∈ keys, "api:".data.isPrefixOf k.data) →
      (∀ k ∈ keys, k ∉ D) →
      keys.Nodup →
      (∀ k, k ∈ (purgeRun now maxAge false true st keys).2 ↔
        k ∈ keys ∧ ∃ v meta, kvGet store k = some v ∧ asApi v = some meta ∧
          purgeShouldDelete store now maxAge true meta = true) ∧
      (∀ k2, kvGet (purgeRun now maxAge false true st keys).1 k2 =
        if k2 ∈ D ∨ k2 ∈ (purgeRun now maxAge false true st keys).2 then none
        else kvGet store k2) := by
  intro keys
  induction keys with
  | nil =>
    intro st D hD _ _ _ _
    refine ⟨fun k => by simp [purgeRun], fun k2 => ?_⟩
    simp only [purgeRun, List.not_mem_nil, or_false]
    exact hD k2
  | cons k ks ih =>
    intro st D hD hDapi hkapi hkD hnd
    have hgetk : kvGet st k = kvGet store k := by
      rw [hD k, if_neg (hkD k (by simp))]
    have htok : ∀ x : String, kvGet st ("tok:open:" ++ x) = kvGet store ("tok:open:" ++ x) := by
      intro x
      rw [hD, if_neg]
      intro hmem
      have := hDapi _ hmem
      rw [tok_key_not_api] at this
      exact Bool.false_ne_true this
    have hdec : ∀ meta, purgeShouldDelete st now maxAge true meta =
        purgeShouldDelete store now maxAge true meta :=
      fun meta => purgeShouldDelete_congr st store now maxAge true meta (htok _)
    have hndk : k ∉ ks := (List.nodup_cons.mp hnd).1
    have hndks : ks.Nodup := (List.nodup_cons.mp hnd).2
    rw [purgeRun]
    simp only [purgeStep, hgetk]
    rcases hv : kvGet store k with _ | v
    case none =>
      simp only [hv]
      obtain ⟨ih1, ih2⟩ := ih st D hD hDapi (fun x hx => hkapi x (by simp [hx]))
        (fun x hx => hkD x (by simp [hx])) hndks
      refine ⟨fun k1 => ?_, fun k2 => ?_⟩
      · simp only [List.nil_append]
        rw [ih1 k1]
        constructor
        · rintro ⟨h1, h2⟩
          exact ⟨by simp [h1], h2⟩
        · rintro ⟨h1, v, meta, hvv, hm, hd2⟩
          rcases (List.mem_cons.mp h1) with h1 | h1
          · subst h1
            rw [hv] at hvv
            cases hvv
          · exact ⟨h1, v, meta, hvv, hm, hd2⟩
      · simpa using ih2 k2
    case some =>
      rcases hm : asApi v with _ | meta
      case none =>
        simp only [hm]
        obtain ⟨ih1, ih2⟩ := ih st D hD hDapi (fun x hx => hkapi x (by simp [hx]))
          (fun x hx => hkD x (by simp [hx])) hndks
        refine ⟨fun k1 => ?_, fun k2 => ?_⟩
        · simp only [List.nil_append]
          rw [ih1 k1]
          constructor
          · rintro ⟨h1, h2⟩
            exact ⟨by simp [h1], h2⟩
          · rintro ⟨h1, v1, meta, hvv, hm1, hd2⟩
            rcases (List.mem_cons.mp h1) with h1 | h1
            · subst h1
              rw [hv] at hvv
              cases hvv
              rw [hm] at hm1
              cases hm1
            · exact ⟨h1, v1, meta, hvv, hm1, hd2⟩
        · simpa using ih2 k2
      case some =>
        simp only [hm, hdec meta, Bool.false_eq_true, if_false]
        by_cases hsd : purgeShouldDelete store now maxAge true meta = true
        · rw [if_pos hsd]
          have hD2 : ∀ k2, kvGet (kvDelete st k) k2 =
              if k2 ∈ D ++ [k] then none else kvGet store k2 := by
            intro k2
            rw [kvGet_del]
            by_cases he : k2 = k
            · simp [he]
            · rw [if_neg he, hD k2]
              by_cases hmem : k2 ∈ D
              · simp [hmem]
              · have : ¬ k2 ∈ D ++ [k] := by simp [hmem, he]
                simp [hmem, this]
          obtain ⟨ih1, ih2⟩ := ih (kvDelete st k) (D ++ [k]) hD2
            (by intro d hd
                rcases List.mem_append.mp hd with hd | hd
                · exact hDapi d hd
                · simp only [List.mem_singleton] at hd
                  subst hd
                  exact hkapi d (by simp))
            (fun x hx => hkapi x (by simp [hx]))
            (by intro x hx
                simp only [List.mem_append, List.mem_singleton]
                rintro (h1 | h1)
                · exact hkD x (by simp [hx]) h1
                · subst h1
                  exact hndk hx)
            hndks
          refine ⟨fun k1 => ?_, fun k2 => ?_⟩
          · simp only [List.singleton_append, List.mem_cons]
            rw [ih1 k1]
            constructor
            · rintro (h1 | ⟨h1, h2⟩)
              · subst h1
                exact ⟨by simp, v, meta, hv, hm, hsd⟩
              · exact ⟨by simp [h1], h2⟩
            · rintro ⟨h1 | h1, v1, meta1, hvv, hm1, hd2⟩
              · exact Or.inl h1
              · exact Or.inr ⟨h1, v1, meta1, hvv, hm1, hd2⟩
          · rw [ih2 k2]
            simp only [List.singleton_append, List.mem_cons, List.mem_append,
              List.mem_singleton]
            by_cases hcase : k2 ∈ D ∨ (k2 = k ∨ k2 ∈ (purgeRun now maxAge false true
                (kvDelete st k) ks).2)
            · rw [if_pos, if_pos hcase]
              tauto
            · rw [if_neg, if_neg hcase]
              tauto
        · rw [if_neg hsd]
          obtain ⟨ih1, ih2⟩ := ih st D hD hDapi (fun x hx => hkapi x (by simp [hx]))
            (fun x hx => hkD x (by simp [hx])) hndks
          refine ⟨fun k1 => ?_, fun k2 => ?_⟩
          · simp only [List.nil_append]
            rw [ih1 k1]
            constructor
            · rintro ⟨h1, h2⟩
              exact ⟨by simp [h1], h2⟩
            · rintro ⟨h1, v1, meta1, hvv, hm1, hd2⟩
              rcases (List.mem_cons.mp h1) with h1 | h1
              · subst h1
                rw [hv] at hvv
                cases hvv
                rw [hm] at hm1
                cases hm1
                exact absurd hd2 hsd
              · exact ⟨h1, v1, meta1, hvv, hm1, hd2⟩
          · simpa using ih2 k2

theorem kvGet_some_mem (st : KV) (k : String) (v : StoredVal)
    (h : kvGet st k = some v) : k ∈ st.map (fun e => e.1) := by
  unfold kvGet at h
  rcases hf : st.find? (fun e => e.1 == k) with _ | e
  · rw [hf] at h
    cases h
  · have hp := List.find?_some hf
    have hmem := List.mem_of_find?_eq_some hf
    have : e.1 = k := by simpa using hp
    subst this
    exact List.mem_map_of_mem _ hmem

/-- Claim C8: with dry-run disabled, removal of unmatched keys enabled and
maxPendingHours 24, a scan of a store with pairwise distinct keys deletes
exactly (1) the api: records whose status is pending and whose age
now - created_at strictly exceeds 24 hours (86400000 ms), and (2) the api:
records whose status is active and whose truthy open_id has no stored
tok:open: record; every other entry of the store is untouched. In particular
a pending record created 25 hours ago is deleted and a pending record
created 1 hour ago is left untouched. -/
theorem C8_retention_sweep (store : KV) (now : Nat)
    (hnodup : (store.map (fun e => e.1)).Nodup) :
    (∀ k, k ∈ (purgeSelective store now false true 24).2 ↔
      ("api:".data.isPrefixOf k.data ∧ ∃ v meta, kvGet store k = some v ∧
        asApi v = some meta ∧
        ((meta.status = some "pending" ∧
            (now : Int) - (meta.created_at.getD 0 : Int) > 86400000) ∨
         (meta.status = some "active" ∧ ∃ o, meta.open_id = some o ∧ o ≠ "" ∧
            storedTruthy (kvGet store ("tok:open:" ++ o)) = false)))) ∧
    (∀ k, kvGet (purgeSelective store now false true 24).1 k =
      if k ∈ (purgeSelective store now false true 24).2 then none else kvGet store k) := by
  have hkeys : ∀ x ∈ (store.map (fun e => e.1)).filter
      (fun k => "api:".data.isPrefixOf k.data), "api:".data.isPrefixOf x.data :=
    fun x hx => (List.mem_filter.mp hx).2
  have hnd2 : ((store.map (fun e => e.1)).filter
      (fun k => "api:".data.isPrefixOf k.data)).Nodup := List.Nodup.filter _ hnodup
  obtain ⟨h1, h2⟩ := purgeRun_char store now 86400000
    ((store.map (fun e => e.1)).filter (fun k => "api:".data.isPrefixOf k.data))
    store [] (fun k2 => by simp) (by simp) hkeys (by simp) hnd2
  have hsame : purgeSelective store now false true 24 =
      purgeRun now 86400000 false true store
        ((store.map (fun e => e.1)).filter (fun k => "api:".data.isPrefixOf k.data)) := rfl
  have hcond : ∀ meta : ApiMeta, purgeShouldDelete store now 86400000 true meta = true ↔
      ((meta.status = some "pending" ∧
          (now : Int) - (meta.created_at.getD 0 : Int) > 86400000) ∨
       (meta.status = some "active" ∧ ∃ o, meta.open_id = some o ∧ o ≠ "" ∧
          storedTruthy (kvGet store ("tok:open:" ++ o)) = false)) := by
    intro meta
    rcases meta with ⟨ms, mo, mc⟩
    rw [purgeShouldDelete]
    simp only [Bool.or_eq_true, Bool.and_eq_true, Bool.not_eq_true', beq_iff_eq,
      decide_eq_true_eq, Nat.cast_ofNat, Option.getD_some]
    constructor
    · rintro (⟨hs, hage⟩ | ⟨⟨⟨⟨hpo, _⟩, hs⟩, ho⟩, htk⟩)
      · exact Or.inl ⟨hs, hage⟩
      · rcases mo with _ | o
        · simp [jsTruthy] at ho
        · exact Or.inr ⟨hs, o, rfl, by simpa [jsTruthy] using ho, htk⟩
    · rintro (⟨hs, hage⟩ | ⟨hs, o, ho, hone, htk⟩)
      · exact Or.inl ⟨hs, hage⟩
      · subst ho
        by_cases hpend : ms = some "pending" ∧
            (now : Int) - ((mc.getD 0 : Nat) : Int) > (86400000 : Int)
        · exact Or.inl (by simpa using hpend)
        · have hfalse : (ms == some "pending" &&
              decide ((now : Int) - ((mc.getD 0 : Nat) : Int) > ((86400000 : Nat) : Int)))
              = false := by
            by_cases h1 : ms = some "pending"
            · have h2 : ¬ ((now : Int) - ((mc.getD 0 : Nat) : Int) > (86400000 : Int)) :=
                fun hd => hpend ⟨h1, hd⟩
              simp [h1]
              simpa using h2
            · simp [h1]
          refine Or.inr ⟨⟨⟨⟨?_, trivial⟩, hs⟩, by simpa [jsTruthy] using hone⟩, htk⟩
          simpa using hfalse
  refine ⟨fun k => ?_, fun k => ?_⟩
  · rw [hsame, h1 k]
    constructor
    · rintro ⟨hmem, v, meta, hg, ha, hd⟩
      exact ⟨(List.mem_filter.mp hmem).2, v, meta, hg, ha, (hcond meta).mp hd⟩
    · rintro ⟨hpre, v, meta, hg, ha, hd⟩
      refine ⟨List.mem_filter.mpr ⟨kvGet_some_mem store k v hg, hpre⟩, v, meta, hg, ha,
        (hcond meta).mpr hd⟩
  · rw [hsame, h2 k]
    simp

/-- Claim C8, witness: in a concrete store scanned at 25 hours, the pending
record created at time 0 is reported deleted, and the active record whose
open_id X has no tok:open:X entry is reported deleted. -/
theorem C8_retention_sweep_witness :
    "api:A" ∈ (purgeSelective
      [("api:A", .api ⟨some "pending", none, some 0⟩, none),
       ("api:B", .api ⟨some "pending", none, some 86400000⟩, none),
       ("api:C", .api ⟨some "active", some "X", some 0⟩, none),
       ("api:D", .api ⟨some "active", some "7788", some 0⟩, none),
       ("tok:open:7788", .tok ⟨some "t", none, none, some "7788", some 0⟩, none)]
      90000000 false true 24).2 ∧
    "api:C" ∈ (purgeSelective
      [("api:A", .api ⟨some "pending", none, some 0⟩, none),
       ("api:B", .api ⟨some "pending", none, some 86400000⟩, none),
       ("api:C", .api ⟨some "active", some "X", some 0⟩, none),
       ("api:D", .api ⟨some "active", some "7788", some 0⟩, none),
       ("tok:open:7788", .tok ⟨some "t", none, none, some "7788", some 0⟩, none)]
      90000000 false true 24).2 :=
  ⟨((C8_retention_sweep
      [("api:A", .api ⟨some "pending", none, some 0⟩, none),
       ("api:B", .api ⟨some "pending", none, some 86400000⟩, none),
       ("api:C", .api ⟨some "active", some "X", some 0⟩, none),
       ("api:D", .api ⟨some "active", some "7788", some 0⟩, none),
       ("tok:open:7788", .tok ⟨some "t", none, none, some "7788", some 0⟩, none)]
      90000000 (by decide)).1 "api:A").mpr
    ⟨by decide, .api ⟨some "pending", none, some 0⟩, ⟨some "pending", none, some 0⟩,
      by decide, rfl, Or.inl ⟨rfl, by decide⟩⟩,
   ((C8_retention_sweep
      [("api:A", .api ⟨some "pending", none, some 0⟩, none),
       ("api:B", .api ⟨some "pending", none, some 86400000⟩, none),
       ("api:C", .api ⟨some "active", some "X", some 0⟩, none),
       ("api:D", .api ⟨some "active", some "7788", some 0⟩, none),
       ("tok:open:7788", .tok ⟨some "t", none, none, some "7788", some 0⟩, none)]
      90000000 (by decide)).1 "api:C").mpr
    ⟨by decide, .api ⟨some "active", some "X", some 0⟩, ⟨some "active", some "X", some 0⟩,
      by decide, rfl, Or.inr ⟨rfl, "X", rfl, by decide, by decide⟩⟩⟩

/-! Claim C10. -/

theorem state_ne_tokKey (a b : String) : "state:" ++ a ≠ "tok:open:" ++ b :=
  str_ne_at 0 _ _ (fun h => by
    have h2 : (some 's' : Option Char) = some 't' := h
    exact absurd h2 (by decide))

theorem state_ne_showKey (a b : String) : "state:" ++ a ≠ "showkey:" ++ b :=
  str_ne_at 1 _ _ (fun h => by
    have h2 : (some 't' : Option Char) = some 'h' := h
    exact absurd h2 (by decide))

theorem state_ne_apiKey (a b : String) : "state:" ++ a ≠ "api:" ++ b :=
  str_ne_at 0 _ _ (fun h => by
    have h2 : (some 's' : Option Char) = some 'a' := h
    exact absurd h2 (by decide))

theorem showKey_ne_tokKey (a b : String) : "showkey:" ++ a ≠ "tok:open:" ++ b :=
  str_ne_at 0 _ _ (fun h => by
    have h2 : (some 's' : Option Char) = some 't' := h
    exact absurd h2 (by decide))

theorem showKey_ne_apiKey (a b : String) : "showkey:" ++ a ≠ "api:" ++ b :=
  str_ne_at 0 _ _ (fun h => by
    have h2 : (some 's' : Option Char) = some 'a' := h
    exact absurd h2 (by decide))

/-- Claim C10: a callback that accepts a state token never deletes the
state:(token) entry, which stays bound to the same value after the handler
finishes (only its TTL removes it); by contrast, when the state carries a
reveal ticket id whose showkey: entry holds a non-empty secret and the code
exchange succeeds, that showkey: entry is deleted by the same callback. -/
theorem C10_callback_state (hash : String → String) (store : KV) (code : Option String)
    (stv : String) (nowMs : Nat) (xchg : XchgResp) (v : StoredVal)
    (hcode : jsTruthy code = true)
    (hstv : stv ≠ "")
    (hstate : kvGet store ("state:" ++ stv) = some v)
    (htr : storedTruthy (some v) = true) :
    kvGet (callback hash store code (some stv) nowMs xchg).store ("state:" ++ stv) = some v ∧
    (∀ s raw, ((asState v).getD { showId := none }).showId = some s → s ≠ "" →
      kvGet store ("showkey:" ++ s) = some (.raw raw) → raw ≠ "" → xchg.ok = true →
      kvGet (callback hash store code (some stv) nowMs xchg).store ("showkey:" ++ s) = none) := by
  have hc2 : jsTruthy (some stv) = true := by simp [jsTruthy, hstv]
  simp only [callback, hcode, hc2, Bool.not_true, Bool.or_self, Bool.false_eq_true, if_false,
    Option.getD_some, hstate, htr]
  by_cases hok : xchg.ok = true
  · simp only [hok, Bool.not_true, Bool.false_eq_true, if_false]
    constructor
    · rcases hshow : ((asState v).getD { showId := none }).showId with _ | s
      · simp only [hshow]
        rw [kvGet_put, if_neg (state_ne_tokKey _ _), hstate]
      · simp only [hshow]
        by_cases hs : s ≠ ""
        · rw [if_pos hs]
          by_cases hsk : asRawStr (kvGet (kvPut store
              ("tok:open:" ++ xchg.data.open_id.getD "undefined")
              (.tok (replaceTok xchg.data nowMs)) none) ("showkey:" ++ s)) ≠ ""
          · rw [if_pos hsk]
            show kvGet (kvPut (kvDelete _ _) _ _ _) _ = _
            rw [kvGet_put, if_neg (state_ne_apiKey _ _), kvGet_del,
              if_neg (state_ne_showKey _ _), kvGet_put, if_neg (state_ne_tokKey _ _), hstate]
          · rw [if_neg hsk]
            show kvGet (kvPut store _ _ _) _ = _
            rw [kvGet_put, if_neg (state_ne_tokKey _ _), hstate]
        · rw [if_neg hs]
          show kvGet (kvPut store _ _ _) _ = _
          rw [kvGet_put, if_neg (state_ne_tokKey _ _), hstate]
    · intro s raw hshow hs hraw hrawne _
      simp only [hshow]
      rw [if_pos hs]
      have hget1 : kvGet (kvPut store ("tok:open:" ++ xchg.data.open_id.getD "undefined")
          (.tok (replaceTok xchg.data nowMs)) none) ("showkey:" ++ s) = some (.raw raw) := by
        rw [kvGet_put, if_neg (showKey_ne_tokKey _ _), hraw]
      rw [hget1]
      have hkey : asRawStr (some (StoredVal.raw raw)) = raw := rfl
      rw [hkey, if_pos hrawne]
      show kvGet (kvPut (kvDelete _ _) _ _ _) _ = _
      rw [kvGet_put, if_neg (showKey_ne_apiKey _ _), kvGet_del, if_pos rfl]
  · simp only [Bool.not_eq_true] at hok
    simp only [hok, Bool.not_false, if_true]
    refine ⟨hstate, ?_⟩
    intro s raw _ _ _ _ hx
    exact absurd hx (by simp [hok])

/-- Claim C10, witness: a concrete accepted callback leaves the state entry
in place and deletes the showkey entry it revealed. -/
theorem C10_callback_state_witness :
    kvGet (callback (fun _ => "HH")
        [("state:ST", .st ⟨some "SID"⟩, some 300), ("showkey:SID", .raw "rk_live_s", some 600)]
        (some "CODE") (some "ST") 5
        ⟨true, ⟨some "at", some "rt", some 3600, some "7788", none⟩, ""⟩).store
      ("state:" ++ "ST") = some (.st ⟨some "SID"⟩) ∧
    kvGet (callback (fun _ => "HH")
        [("state:ST", .st ⟨some "SID"⟩, some 300), ("showkey:SID", .raw "rk_live_s", some 600)]
        (some "CODE") (some "ST") 5
        ⟨true, ⟨some "at", some "rt", some 3600, some "7788", none⟩, ""⟩).store
      ("showkey:" ++ "SID") = none :=
  ⟨(C10_callback_state (fun _ => "HH")
      [("state:ST", .st ⟨some "SID"⟩, some 300), ("showkey:SID", .raw "rk_live_s", some 600)]
      (some "CODE") "ST" 5 ⟨true, ⟨some "at", some "rt", some 3600, some "7788", none⟩, ""⟩
      (.st ⟨some "SID"⟩) (by decide) (by decide) (by decide) (by decide)).1,
   (C10_callback_state (fun _ => "HH")
      [("state:ST", .st ⟨some "SID"⟩, some 300), ("showkey:SID", .raw "rk_live_s", some 600)]
      (some "CODE") "ST" 5 ⟨true, ⟨some "at", some "rt", some 3600, some "7788", none⟩, ""⟩
      (.st ⟨some "SID"⟩) (by decide) (by decide) (by decide) (by decide)).2
    "SID" "rk_live_s" rfl (by decide) (by decide) (by decide) rfl⟩

/-! Claims C4, C5 and C9: the webhook dispatcher. -/

theorem api_ne_rateKey (a b s : String) : "api:" ++ a ≠ "rk:webhook:" ++ b ++ ":" ++ s :=
  str_ne_at 0 _ _ (fun h => by
    have h2 : (some 'a' : Option Char) = some 'r' := h
    exact absurd h2 (by decide))

theorem idem_ne_rateKey (a b s : String) : "idem:" ++ a ≠ "rk:webhook:" ++ b ++ ":" ++ s :=
  str_ne_at 0 _ _ (fun h => by
    have h2 : (some 'i' : Option Char) = some 'r' := h
    exact absurd h2 (by decide))

theorem api_ne_idemKey (a b : String) : "api:" ++ a ≠ "idem:" ++ b :=
  str_ne_at 0 _ _ (fun h => by
    have h2 : (some 'a' : Option Char) = some 'i' := h
    exact absurd h2 (by decide))

theorem kvGet_rate_other (st : KV) (k : String) (l w t : Nat) (k2 : String)
    (h : ∀ s, k2 ≠ k ++ ":" ++ s) :
    kvGet (enforceRate st k l w t).2 k2 = kvGet st k2 := by
  rw [enforceRate]
  by_cases hc : (match kvGet st (k ++ ":" ++ natStr (t / 1000 / w)) with
      | some (.raw s) => (parseDec s).getD 0
      | _ => 0) ≥ l
  · rw [if_pos hc]
  · rw [if_neg hc]
    simp only
    rw [kvGet_put, if_neg (h _)]

/-- Replay shape shared by the idempotency claims: under a present api key
that hashes to an active record, an allowed rate check, a valid payload and
a stored idempotency record, the webhook returns the stored result with
status 200, performs no signing, no token refresh and no publish call, and
leaves the store unchanged except for the rate counter update. -/
theorem webhook_replay (crypto : SigCrypto) (hash : String → String) (cfg : WebhookCfg)
    (store : KV) (req : WebhookReq) (nowMs : Nat) (date datetime : String)
    (refresh : RefreshResp) (pub : PublishResp)
    (ak : String) (meta : ApiMeta) (oid ik : String) (j : Json)
    (hak : req.apiKey = some ak) (hakne : ak ≠ "")
    (hallow : (enforceRate store ("rk:webhook:" ++ hash ak) 60 60 nowMs).1.allowed = true)
    (hmeta : kvGet store ("api:" ++ hash ak) = some (.api meta))
    (hstatus : meta.status = some "active")
    (hopen : meta.open_id = some oid) (hoid : oid ≠ "")
    (hbody : (jsTruthy req.id || jsTruthy req.r2Url || jsTruthy req.url) = true)
    (hidk : req.idempotencyKey = some ik) (hikne : ik ≠ "")
    (hidem : kvGet store ("idem:" ++ oid ++ ":" ++ ik) = some (.idem j)) :
    webhook crypto hash cfg store req nowMs date datetime refresh pub =
      ⟨200, j, (enforceRate store ("rk:webhook:" ++ hash ak) 60 60 nowMs).2,
       false, false, false⟩ := by
  have hmeta1 : kvGet (enforceRate store ("rk:webhook:" ++ hash ak) 60 60 nowMs).2
      ("api:" ++ hash ak) = some (.api meta) := by
    rw [kvGet_rate_other _ _ _ _ _ _ (fun s => api_ne_rateKey _ _ s), hmeta]
  have hidem1 : kvGet (enforceRate store ("rk:webhook:" ++ hash ak) 60 60 nowMs).2
      ("idem:" ++ oid ++ ":" ++ ik) = some (.idem j) := by
    rw [kvGet_rate_other _ _ _ _ _ _ (fun s => str_ne_at 0 _ _ (fun h => by
      have h2 : (some 'i' : Option Char) = some 'r' := h
      exact absurd h2 (by decide))), hidem]
  rw [webhook]
  simp only [hak, Option.getD_some]
  rw [if_neg hakne]
  simp only [hallow, Bool.not_true, Bool.false_eq_true, if_false, hmeta1, asApi,
    Option.getD_some, hstatus, hopen]
  rw [if_neg (by simp [jsTruthy, hoid])]
  rw [if_neg (by simp [hbody])]
  simp only [hidk, Option.getD_some]
  rw [if_pos hikne]
  simp only [hidem1]

set_option maxRecDepth 8000 in
/-- Claim C4, counterexample: a dispatch that replays a stored idempotency
record does return the stored result verbatim without calling the publish
API, but it does perform a store write: the rate-limit counter is updated
before the idempotency check, so the store after the call differs from the
store before it. -/
theorem C4_counterexample :
    (webhook ⟨fun _ => "h", fun _ _ => "m", fun _ => "x"⟩ (fun _ => "H")
        ⟨"AK", "SK", "vids", "r2.example.com"⟩
        [("api:H", .api ⟨some "active", some "7788", some 0⟩, none),
         ("idem:7788:K1", .idem (Json.str "res"), some 86400)]
        ⟨some "rk", some "clip", none, none, none, some "K1", none, false⟩
        0 "d" "dt" ⟨false, ⟨none, none, none, none, none⟩, ""⟩ ⟨false, "", none⟩).body =
      Json.str "res" ∧
    (webhook ⟨fun _ => "h", fun _ _ => "m", fun _ => "x"⟩ (fun _ => "H")
        ⟨"AK", "SK", "vids", "r2.example.com"⟩
        [("api:H", .api ⟨some "active", some "7788", some 0⟩, none),
         ("idem:7788:K1", .idem (Json.str "res"), some 86400)]
        ⟨some "rk", some "clip", none, none, none, some "K1", none, false⟩
        0 "d" "dt" ⟨false, ⟨none, none, none, none, none⟩, ""⟩ ⟨false, "", none⟩).publishCalled =
      false ∧
    (webhook ⟨fun _ => "h", fun _ _ => "m", fun _ => "x"⟩ (fun _ => "H")
        ⟨"AK", "SK", "vids", "r2.example.com"⟩
        [("api:H", .api ⟨some "active", some "7788", some 0⟩, none),
         ("idem:7788:K1", .idem (Json.str "res"), some 86400)]
        ⟨some "rk", some "clip", none, none, none, some "K1", none, false⟩
        0 "d" "dt" ⟨false, ⟨none, none, none, none, none⟩, ""⟩ ⟨false, "", none⟩).store ≠
      [("api:H", .api ⟨some "active", some "7788", some 0⟩, none),
       ("idem:7788:K1", .idem (Json.str "res"), some 86400)] :=
  ⟨by decide, by decide, by decide⟩

/-- Claim C4, amended: a dispatch whose (accountId, idempotencyKey) already
has a stored IdempotencyRecord returns the stored result verbatim with
status 200, does not invoke the signer, the token refresh or the publish
API, and performs no store write other than the rate-limit counter update
done before the idempotency check; hence two dispatches with the same key
and payload return byte-identical result bodies. -/
theorem C4_idem_replay (crypto : SigCrypto) (hash : String → String) (cfg : WebhookCfg)
    (store : KV) (req : WebhookReq) (nowMs : Nat) (date datetime : String)
    (refresh : RefreshResp) (pub : PublishResp)
    (ak : String) (meta : ApiMeta) (oid ik : String) (j : Json)
    (hak : req.apiKey = some ak) (hakne : ak ≠ "")
    (hallow : (enforceRate store ("rk:webhook:" ++ hash ak) 60 60 nowMs).1.allowed = true)
    (hmeta : kvGet store ("api:" ++ hash ak) = some (.api meta))
    (hstatus : meta.status = some "active")
    (hopen : meta.open_id = some oid) (hoid : oid ≠ "")
    (hbody : (jsTruthy req.id || jsTruthy req.r2Url || jsTruthy req.url) = true)
    (hidk : req.idempotencyKey = some ik) (hikne : ik ≠ "")
    (hidem : kvGet store ("idem:" ++ oid ++ ":" ++ ik) = some (.idem j)) :
    webhook crypto hash cfg store req nowMs date datetime refresh pub =
      ⟨200, j, (enforceRate store ("rk:webhook:" ++ hash ak) 60 60 nowMs).2,
       false, false, false⟩ :=
  webhook_replay crypto hash cfg store req nowMs date datetime refresh pub
    ak meta oid ik j hak hakne hallow hmeta hstatus hopen hoid hbody hidk hikne hidem

set_option maxRecDepth 8000 in
/-- Claim C4, witness: the amended claim applied at the counterexample
input: the replay returns the stored result with only the rate counter
written. -/
theorem C4_idem_replay_witness :
    webhook ⟨fun _ => "h", fun _ _ => "m", fun _ => "x"⟩ (fun _ => "H")
        ⟨"AK", "SK", "vids", "r2.example.com"⟩
        [("api:H", .api ⟨some "active", some "7788", some 0⟩, none),
         ("idem:7788:K1", .idem (Json.str "res"), some 86400)]
        ⟨some "rk", some "clip", none, none, none, some "K1", none, false⟩
        0 "d" "dt" ⟨false, ⟨none, none, none, none, none⟩, ""⟩ ⟨false, "", none⟩ =
      ⟨200, Json.str "res",
       [("rk:webhook:H:0", .raw "1", some 60),
        ("api:H", .api ⟨some "active", some "7788", some 0⟩, none),
        ("idem:7788:K1", .idem (Json.str "res"), some 86400)],
       false, false, false⟩ :=
  C4_idem_replay ⟨fun _ => "h", fun _ _ => "m", fun _ => "x"⟩ (fun _ => "H")
    ⟨"AK", "SK", "vids", "r2.example.com"⟩
    [("api:H", .api ⟨some "active", some "7788", some 0⟩, none),
     ("idem:7788:K1", .idem (Json.str "res"), some 86400)]
    ⟨some "rk", some "clip", none, none, none, some "K1", none, false⟩
    0 "d" "dt" ⟨false, ⟨none, none, none, none, none⟩, ""⟩ ⟨false, "", none⟩
    "rk" ⟨some "active", some "7788", some 0⟩ "7788" "K1" (Json.str "res")
    rfl (by decide) (by decide) (by decide) rfl rfl (by decide) (by decide) rfl
    (by decide) (by decide)

set_option maxRecDepth 16000 in
/-- Claim C5, counterexample: a payload supplying both an id and a url is
not rejected with 400; the dispatcher proceeds with the id, invoking the
signer (here a dry run that returns 200). -/
theorem C5_counterexample :
    (webhook ⟨fun _ => "h", fun _ _ => "m", fun _ => "x"⟩ (fun _ => "H")
        ⟨"AK", "SK", "vids", "r2.example.com"⟩
        [("api:H", .api ⟨some "active", some "7788", some 0⟩, none),
         ("tok:open:7788", .tok ⟨some "A", some "R", some 3600, some "7788", some 0⟩, none)]
        ⟨some "rk", some "clip", none, some "https://r2.example.com/old.mp4", none, none,
          none, true⟩
        0 "20250101" "20250101T000000Z" ⟨false, ⟨none, none, none, none, none⟩, ""⟩
        ⟨false, "", none⟩).status = 200 ∧
    (webhook ⟨fun _ => "h", fun _ _ => "m", fun _ => "x"⟩ (fun _ => "H")
        ⟨"AK", "SK", "vids", "r2.example.com"⟩
        [("api:H", .api ⟨some "active", some "7788", some 0⟩, none),
         ("tok:open:7788", .tok ⟨some "A", some "R", some 3600, some "7788", some 0⟩, none)]
        ⟨some "rk", some "clip", none, some "https://r2.example.com/old.mp4", none, none,
          none, true⟩
        0 "20250101" "20250101T000000Z" ⟨false, ⟨none, none, none, none, none⟩, ""⟩
        ⟨false, "", none⟩).signerCalled = true :=
  ⟨by decide, by decide⟩

/-- Claim C5, amended: a payload supplying none of id, r2Url and url is
rejected with status 400 and the error body, without invoking the signer,
the token manager or the publish API; a payload supplying both an id and a
url is not rejected — the id takes precedence. -/
theorem C5_payload_validation (crypto : SigCrypto) (hash : String → String) (cfg : WebhookCfg)
    (store : KV) (req : WebhookReq) (nowMs : Nat) (date datetime : String)
    (refresh : RefreshResp) (pub : PublishResp)
    (ak : String) (meta : ApiMeta) (oid : String)
    (hak : req.apiKey = some ak) (hakne : ak ≠ "")
    (hallow : (enforceRate store ("rk:webhook:" ++ hash ak) 60 60 nowMs).1.allowed = true)
    (hmeta : kvGet store ("api:" ++ hash ak) = some (.api meta))
    (hstatus : meta.status = some "active")
    (hopen : meta.open_id = some oid) (hoid : oid ≠ "")
    (hnone : (jsTruthy req.id || jsTruthy req.r2Url || jsTruthy req.url) = false) :
    webhook crypto hash cfg store req nowMs date datetime refresh pub =
      ⟨400, errJson "Provide \x27id\x27 or \x27r2Url\x27/\x27url\x27",
       (enforceRate store ("rk:webhook:" ++ hash ak) 60 60 nowMs).2,
       false, false, false⟩ := by
  have hmeta1 : kvGet (enforceRate store ("rk:webhook:" ++ hash ak) 60 60 nowMs).2
      ("api:" ++ hash ak) = some (.api meta) := by
    rw [kvGet_rate_other _ _ _ _ _ _ (fun s => api_ne_rateKey _ _ s), hmeta]
  rw [webhook]
  simp only [hak, Option.getD_some]
  rw [if_neg hakne]
  simp only [hallow, Bool.not_true, Bool.false_eq_true, if_false, hmeta1, asApi,
    Option.getD_some, hstatus, hopen]
  rw [if_neg (by simp [jsTruthy, hoid])]
  rw [if_pos (by simp [hnone])]

/-- Claim C5, witness: the amended claim applied at a concrete authorised
request carrying neither an id nor a url. -/
theorem C5_payload_validation_witness :
    webhook ⟨fun _ => "h", fun _ _ => "m", fun _ => "x"⟩ (fun _ => "H")
        ⟨"AK", "SK", "vids", "r2.example.com"⟩
        [("api:H", .api ⟨some "active", some "7788", some 0⟩, none)]
        ⟨some "rk", none, none, some "", none, none, none, false⟩
        0 "d" "dt" ⟨false, ⟨none, none, none, none, none⟩, ""⟩ ⟨false, "", none⟩ =
      ⟨400, errJson "Provide \x27id\x27 or \x27r2Url\x27/\x27url\x27",
       [("rk:webhook:H:0", .raw "1", some 60),
        ("api:H", .api ⟨some "active", some "7788", some 0⟩, none)],
       false, false, false⟩ :=
  C5_payload_validation ⟨fun _ => "h", fun _ _ => "m", fun _ => "x"⟩ (fun _ => "H")
    ⟨"AK", "SK", "vids", "r2.example.com"⟩
    [("api:H", .api ⟨some "active", some "7788", some 0⟩, none)]
    ⟨some "rk", none, none, some "", none, none, none, false⟩
    0 "d" "dt" ⟨false, ⟨none, none, none, none, none⟩, ""⟩ ⟨false, "", none⟩
    "rk" ⟨some "active", some "7788", some 0⟩ "7788"
    rfl (by decide) (by decide) rfl rfl rfl (by decide) (by decide)

/-- Claim C9: when a dispatch carrying an idempotency key throws inside the
try block (a signing failure, or a failed token refresh), the failure result
is persisted under idem:(accountId):(key) with a 24-hour TTL and returned
with status 500; a subsequent dispatch with the same key replays the stored
failure with status 200 without re-attempting signing, token refresh or the
publish call. -/
theorem C9_failure_replay (crypto : SigCrypto) (hash : String → String) (cfg : WebhookCfg)
    (store : KV) (req : WebhookReq) (nowMs nowMs2 : Nat) (date datetime date2 datetime2 : String)
    (refresh refresh2 : RefreshResp) (pub pub2 : PublishResp)
    (ak : String) (meta : ApiMeta) (oid ik e : String) (fl : Bool)
    (hak : req.apiKey = some ak) (hakne : ak ≠ "")
    (hallow : (enforceRate store ("rk:webhook:" ++ hash ak) 60 60 nowMs).1.allowed = true)
    (hmeta : kvGet store ("api:" ++ hash ak) = some (.api meta))
    (hstatus : meta.status = some "active")
    (hopen : meta.open_id = some oid) (hoid : oid ≠ "")
    (hbody : (jsTruthy req.id || jsTruthy req.r2Url || jsTruthy req.url) = true)
    (hidk : req.idempotencyKey = some ik) (hikne : ik ≠ "")
    (hnoidem : kvGet store ("idem:" ++ oid ++ ":" ++ ik) = none)
    (hthrow :
      (resolveAndSign crypto cfg.accessKeyId cfg.secretKey cfg.bucket cfg.host date datetime
          req.id (jsCoalesce req.r2Url req.url) = .error e ∧ fl = false) ∨
      (∃ u, resolveAndSign crypto cfg.accessKeyId cfg.secretKey cfg.bucket cfg.host date
          datetime req.id (jsCoalesce req.r2Url req.url) = .ok u ∧
        getAccessTokenFor (enforceRate store ("rk:webhook:" ++ hash ak) 60 60 nowMs).2
            ("tok:open:" ++ oid) nowMs refresh =
          (.error e, (enforceRate store ("rk:webhook:" ++ hash ak) 60 60 nowMs).2, fl))) :
    webhook crypto hash cfg store req nowMs date datetime refresh pub =
      ⟨500, errJson e,
       kvPut (enforceRate store ("rk:webhook:" ++ hash ak) 60 60 nowMs).2
         ("idem:" ++ oid ++ ":" ++ ik) (.idem (errJson e)) (some 86400),
       true, fl, false⟩ ∧
    kvTtl (kvPut (enforceRate store ("rk:webhook:" ++ hash ak) 60 60 nowMs).2
        ("idem:" ++ oid ++ ":" ++ ik) (.idem (errJson e)) (some 86400))
      ("idem:" ++ oid ++ ":" ++ ik) = some (some 86400) ∧
    ((enforceRate (kvPut (enforceRate store ("rk:webhook:" ++ hash ak) 60 60 nowMs).2
          ("idem:" ++ oid ++ ":" ++ ik) (.idem (errJson e)) (some 86400))
        ("rk:webhook:" ++ hash ak) 60 60 nowMs2).1.allowed = true →
      webhook crypto hash cfg
          (kvPut (enforceRate store ("rk:webhook:" ++ hash ak) 60 60 nowMs).2
            ("idem:" ++ oid ++ ":" ++ ik) (.idem (errJson e)) (some 86400))
          req nowMs2 date2 datetime2 refresh2 pub2 =
        ⟨200, errJson e,
         (enforceRate (kvPut (enforceRate store ("rk:webhook:" ++ hash ak) 60 60 nowMs).2
            ("idem:" ++ oid ++ ":" ++ ik) (.idem (errJson e)) (some 86400))
           ("rk:webhook:" ++ hash ak) 60 60 nowMs2).2,
         false, false, false⟩) := by
  have hmeta1 : kvGet (enforceRate store ("rk:webhook:" ++ hash ak) 60 60 nowMs).2
      ("api:" ++ hash ak) = some (.api meta) := by
    rw [kvGet_rate_other _ _ _ _ _ _ (fun s => api_ne_rateKey _ _ s), hmeta]
  have hnoidem1 : kvGet (enforceRate store ("rk:webhook:" ++ hash ak) 60 60 nowMs).2
      ("idem:" ++ oid ++ ":" ++ ik) = none := by
    rw [kvGet_rate_other _ _ _ _ _ _ (fun s => str_ne_at 0 _ _ (fun h => by
      have h2 : (some 'i' : Option Char) = some 'r' := h
      exact absurd h2 (by decide))), hnoidem]
  refine ⟨?_, ?_, ?_⟩
  · rw [webhook]
    simp only [hak, Option.getD_some]
    rw [if_neg hakne]
    simp only [hallow, Bool.not_true, Bool.false_eq_true, if_false, hmeta1, asApi,
      Option.getD_some, hstatus, hopen]
    rw [if_neg (by simp [jsTruthy, hoid])]
    rw [if_neg (by simp [hbody])]
    simp only [hidk, Option.getD_some]
    rw [if_pos hikne]
    simp only [hnoidem1]
    rcases hthrow with ⟨hsign, hfl⟩ | ⟨u, hsign, htok⟩
    · rw [hsign, hfl]
      simp [hikne]
    · rw [hsign, htok]
      simp [hikne]
  · rw [kvTtl_put, if_pos rfl]
  · intro hallow2
    have hmeta2 : kvGet (kvPut (enforceRate store ("rk:webhook:" ++ hash ak) 60 60 nowMs).2
        ("idem:" ++ oid ++ ":" ++ ik) (.idem (errJson e)) (some 86400))
        ("api:" ++ hash ak) = some (.api meta) := by
      rw [kvGet_put, if_neg (fun h => api_ne_idemKey (hash ak) (oid ++ ":" ++ ik) (by
        rw [h]
        rw [String.append_assoc, String.append_assoc, String.append_assoc oid]))]
      exact hmeta1
    have hidem2 : kvGet (kvPut (enforceRate store ("rk:webhook:" ++ hash ak) 60 60 nowMs).2
        ("idem:" ++ oid ++ ":" ++ ik) (.idem (errJson e)) (some 86400))
        ("idem:" ++ oid ++ ":" ++ ik) = some (.idem (errJson e)) := by
      rw [kvGet_put, if_pos rfl]
    exact webhook_replay crypto hash cfg _ req nowMs2 date2 datetime2 refresh2 pub2
      ak meta oid ik (errJson e) hak hakne hallow2 hmeta2 hstatus hopen hoid hbody
      hidk hikne hidem2

set_option maxRecDepth 8000 in
/-- Claim C9, witness: a dispatch whose signing step throws (the url field is
not a parsable URL) persists the failure result under the idempotency key
with a 24-hour TTL and returns 500; the second dispatch replays it with 200
and no signing, refresh or publish attempt. -/
theorem C9_failure_replay_witness :
    webhook ⟨fun _ => "h", fun _ _ => "m", fun _ => "x"⟩ (fun _ => "H")
        ⟨"AK", "SK", "vids", "r2.example.com"⟩
        [("api:H", .api ⟨some "active", some "7788", some 0⟩, none),
         ("tok:open:7788", .tok ⟨some "A", some "R", some 3600, some "7788", some 0⟩, none)]
        ⟨some "rk", none, none, some "x", none, some "K1", none, false⟩
        4000000 "d" "dt" ⟨false, ⟨none, none, none, none, none⟩, "boom"⟩ ⟨false, "", none⟩ =
      ⟨500, errJson "TypeError: Invalid URL string.",
       kvPut (enforceRate
           [("api:H", .api ⟨some "active", some "7788", some 0⟩, none),
            ("tok:open:7788", .tok ⟨some "A", some "R", some 3600, some "7788", some 0⟩, none)]
           ("rk:webhook:" ++ "H") 60 60 4000000).2
         ("idem:" ++ "7788" ++ ":" ++ "K1")
         (.idem (errJson "TypeError: Invalid URL string.")) (some 86400),
       true, false, false⟩ ∧
    webhook ⟨fun _ => "h", fun _ _ => "m", fun _ => "x"⟩ (fun _ => "H")
        ⟨"AK", "SK", "vids", "r2.example.com"⟩
        (kvPut (enforceRate
            [("api:H", .api ⟨some "active", some "7788", some 0⟩, none),
             ("tok:open:7788", .tok ⟨some "A", some "R", some 3600, some "7788", some 0⟩,
               none)]
            ("rk:webhook:" ++ "H") 60 60 4000000).2
          ("idem:" ++ "7788" ++ ":" ++ "K1")
          (.idem (errJson "TypeError: Invalid URL string.")) (some 86400))
        ⟨some "rk", none, none, some "x", none, some "K1", none, false⟩
        4000001 "d" "dt" ⟨false, ⟨none, none, none, none, none⟩, "boom"⟩ ⟨false, "", none⟩ =
      ⟨200, errJson "TypeError: Invalid URL string.",
       (enforceRate (kvPut (enforceRate
            [("api:H", .api ⟨some "active", some "7788", some 0⟩, none),
             ("tok:open:7788", .tok ⟨some "A", some "R", some 3600, some "7788", some 0⟩,
               none)]
            ("rk:webhook:" ++ "H") 60 60 4000000).2
          ("idem:" ++ "7788" ++ ":" ++ "K1")
          (.idem (errJson "TypeError: Invalid URL string.")) (some 86400))
         ("rk:webhook:" ++ "H") 60 60 4000001).2,
       false, false, false⟩ :=
  ⟨(C9_failure_replay ⟨fun _ => "h", fun _ _ => "m", fun _ => "x"⟩ (fun _ => "H")
      ⟨"AK", "SK", "vids", "r2.example.com"⟩
      [("api:H", .api ⟨some "active", some "7788", some 0⟩, none),
       ("tok:open:7788", .tok ⟨some "A", some "R", some 3600, some "7788", some 0⟩, none)]
      ⟨some "rk", none, none, some "x", none, some "K1", none, false⟩
      4000000 4000001 "d" "dt" "d" "dt"
      ⟨false, ⟨none, none, none, none, none⟩, "boom"⟩
      ⟨false, ⟨none, none, none, none, none⟩, "boom"⟩
      ⟨false, "", none⟩ ⟨false, "", none⟩
      "rk" ⟨some "active", some "7788", some 0⟩ "7788" "K1"
      "TypeError: Invalid URL string." false
      rfl (by decide) (by decide) rfl rfl rfl (by decide) (by decide) rfl (by decide)
      (by decide) (Or.inl ⟨rfl, rfl⟩)).1,
   (C9_failure_replay ⟨fun _ => "h", fun _ _ => "m", fun _ => "x"⟩ (fun _ => "H")
      ⟨"AK", "SK", "vids", "r2.example.com"⟩
      [("api:H", .api ⟨some "active", some "7788", some 0⟩, none),
       ("tok:open:7788", .tok ⟨some "A", some "R", some 3600, some "7788", some 0⟩, none)]
      ⟨some "rk", none, none, some "x", none, some "K1", none, false⟩
      4000000 4000001 "d" "dt" "d" "dt"
      ⟨false, ⟨none, none, none, none, none⟩, "boom"⟩
      ⟨false, ⟨none, none, none, none, none⟩, "boom"⟩
      ⟨false, "", none⟩ ⟨false, "", none⟩
      "rk" ⟨some "active", some "7788", some 0⟩ "7788" "K1"
      "TypeError: Invalid URL string." false
      rfl (by decide) (by decide) rfl rfl rfl (by decide) (by decide) rfl (by decide)
      (by decide) (Or.inl ⟨rfl, rfl⟩)).2.2 (by decide)⟩

/-! Claim C2: lemmas about percent-encoding, decoding and URL parsing. -/

theorem flat_append (f : α → List β) (xs ys : List α) :
    flat f (xs ++ ys) = flat f xs ++ flat f ys := by
  induction xs with
  | nil => rfl
  | cons a as ih => simp [flat, ih]

theorem flat_id_of (f : α → List α) (l : List α) (h : ∀ x ∈ l, f x = [x]) :
    flat f l = l := by
  induction l with
  | nil => rfl
  | cons a as ih =>
    rw [flat, h a (by simp), ih (fun x hx => h x (by simp [hx]))]
    rfl

theorem flat_eq_nil_iff (f : α → List β) (l : List α) (h : ∀ x ∈ l, f x ≠ []) :
    flat f l = [] ↔ l = [] := by
  cases l with
  | nil => simp [flat]
  | cons a as =>
    simp only [flat, List.append_eq_nil]
    constructor
    · rintro ⟨h1, _⟩
      exact absurd h1 (h a (by simp))
    · intro h1
      cases h1

theorem char_toNat_lt (c : Char) : c.toNat < 1114112 := by
  rcases c.valid with h | ⟨_, h2⟩
  · exact Nat.lt_trans h (by norm_num)
  · exact h2

theorem utf8Bytes_lt256 (n : Nat) (hn : n < 1114112) : ∀ b ∈ utf8Bytes n, b < 256 := by
  intro b hb
  rw [utf8Bytes] at hb
  by_cases h1 : n < 128
  · rw [if_pos h1] at hb
    simp at hb
    omega
  · rw [if_neg h1] at hb
    by_cases h2 : n < 2048
    · rw [if_pos h2] at hb
      simp at hb
      rcases hb with hb | hb <;> omega
    · rw [if_neg h2] at hb
      by_cases h3 : n < 65536
      · rw [if_pos h3] at hb
        simp at hb
        rcases hb with hb | hb | hb <;> omega
      · rw [if_neg h3] at hb
        simp at hb
        rcases hb with hb | hb | hb | hb <;> omega

theorem utf8Bytes_ge128 (n : Nat) (hn : 128 ≤ n) : ∀ b ∈ utf8Bytes n, 128 ≤ b := by
  intro b hb
  rw [utf8Bytes, if_neg (by omega)] at hb
  by_cases h2 : n < 2048
  · rw [if_pos h2] at hb
    simp at hb
    rcases hb with hb | hb <;> omega
  · rw [if_neg h2] at hb
    by_cases h3 : n < 65536
    · rw [if_pos h3] at hb
      simp at hb
      rcases hb with hb | hb | hb <;> omega
    · rw [if_neg h3] at hb
      simp at hb
      rcases hb with hb | hb | hb | hb <;> omega

theorem unreserved_lt128 {n : Nat} (h : isUnreservedURI n = true) : n < 128 := by
  rw [isUnreservedURI] at h
  simp only [Bool.or_eq_true, Bool.and_eq_true, decide_eq_true_eq, beq_iff_eq,
    Nat.le_iff_lt_or_eq] at h
  omega

theorem charBytes_ascii (c : Char) (h : c.toNat < 128) : charBytes c = [c.toNat] := by
  rw [charBytes, utf8Bytes, if_pos h]

theorem mem_flat_pctTriple (bs : List Nat) (hlt : ∀ b ∈ bs, b < 256) :
    ∀ x ∈ flat pctTriple bs, x = Char.ofNat 37 ∨ ∃ v, v < 16 ∧ x = hexUpper v := by
  induction bs with
  | nil => intro x hx; cases hx
  | cons b rest ih =>
    intro x hx
    rw [flat] at hx
    rcases List.mem_append.mp hx with hx1 | hx1
    · have hb : b < 256 := hlt b (by simp)
      rw [pctTriple] at hx1
      simp only [List.mem_cons, List.not_mem_nil, or_false] at hx1
      rcases hx1 with hx1 | hx1 | hx1
      · exact Or.inl hx1
      · exact Or.inr ⟨b / 16, by omega, hx1⟩
      · exact Or.inr ⟨b % 16, by omega, hx1⟩
    · exact ih (fun b2 hb2 => hlt b2 (by simp [hb2])) x hx1

/-- Members of the encoding of one character: either the character itself
(when unreserved), the percent sign, or an uppercase hex digit. -/
theorem encChar_mem (c x : Char) (hx : x ∈ encChar c) :
    (isUnreservedURI c.toNat = true ∧ x = c) ∨ x = Char.ofNat 37 ∨
      (∃ v, v < 16 ∧ x = hexUpper v) := by
  rw [encChar] at hx
  by_cases hu : isUnreservedURI c.toNat
  · rw [if_pos hu] at hx
    simp at hx
    exact Or.inl ⟨hu, hx⟩
  · rw [if_neg hu] at hx
    right
    have hlt : ∀ b ∈ charBytes c, b < 256 :=
      utf8Bytes_lt256 c.toNat (char_toNat_lt c)
    exact mem_flat_pctTriple (charBytes c) hlt x hx

theorem hexUpper_toNat (v : Nat) (hv : v < 16) :
    (hexUpper v).toNat = if v < 10 then 48 + v else 55 + v := by
  rw [hexUpper]
  by_cases h : v < 10
  · rw [if_pos h, charToNat_ofNat_small (by omega)]
  · rw [if_neg h, charToNat_ofNat_small (by omega)]

/-- Numeric facts about every character the encoder can emit: ASCII, not a
percent-triple breaker, and not a URL delimiter. -/
theorem encChar_mem_toNat (c x : Char) (hx : x ∈ encChar c) :
    x.toNat < 128 ∧ x.toNat ≠ 47 ∧ x.toNat ≠ 92 ∧ x.toNat ≠ 63 ∧ x.toNat ≠ 35 := by
  rcases encChar_mem c x hx with ⟨hu, hxc⟩ | hx1 | ⟨v, hv, hxv⟩
  · subst hxc
    have h1 := unreserved_lt128 hu
    refine ⟨h1, ?_, ?_, ?_, ?_⟩ <;>
      (intro he; rw [he] at hu; exact absurd hu (by decide))
  · subst hx1
    refine ⟨by decide, by decide, by decide, by decide, by decide⟩
  · subst hxv
    rw [hexUpper_toNat v hv]
    by_cases h : v < 10 <;> simp [h] <;> omega

theorem strBytes_append (xs ys : List Char) :
    strBytes (xs ++ ys) = strBytes xs ++ strBytes ys :=
  flat_append charBytes xs ys

theorem hexVal_hexUpper : ∀ v, v < 16 → hexVal ((hexUpper v).toNat) = some v := by decide

theorem strBytes_pctTriple (b : Nat) (hb : b < 256) :
    strBytes (pctTriple b) =
      [37, (hexUpper (b / 16)).toNat, (hexUpper (b % 16)).toNat] := by
  have h1 : (hexUpper (b / 16)).toNat < 128 := by
    rw [hexUpper_toNat (b / 16) (by omega)]
    by_cases h : b / 16 < 10 <;> simp [h] <;> omega
  have h2 : (hexUpper (b % 16)).toNat < 128 := by
    rw [hexUpper_toNat (b % 16) (by omega)]
    by_cases h : b % 16 < 10 <;> simp [h] <;> omega
  rw [pctTriple]
  show charBytes (Char.ofNat 37) ++ (charBytes (hexUpper (b / 16)) ++
    (charBytes (hexUpper (b % 16)) ++ [])) = _
  rw [charBytes_ascii _ (by decide), charBytes_ascii _ h1, charBytes_ascii _ h2]
  rfl

theorem pct_triple_decode (bs : List Nat) (hlt : ∀ b ∈ bs, b < 256) (rest : List Nat) :
    pctDecodeBytes
        (flat (fun b => [37, (hexUpper (b / 16)).toNat, (hexUpper (b % 16)).toNat]) bs ++
          rest) =
      (pctDecodeBytes rest).map (fun l => bs ++ l) := by
  induction bs generalizing rest with
  | nil =>
    simp only [flat, List.nil_append]
    cases pctDecodeBytes rest <;> simp
  | cons b rest2 ih =>
    have hb : b < 256 := hlt b (by simp)
    rw [flat, List.append_assoc]
    show pctDecodeBytes (37 :: (hexUpper (b / 16)).toNat :: (hexUpper (b % 16)).toNat ::
      (flat _ rest2 ++ rest)) = _
    rw [pctDecodeBytes]
    rw [if_pos rfl]
    rw [hexVal_hexUpper (b / 16) (by omega), hexVal_hexUpper (b % 16) (by omega)]
    rw [ih (fun x hx => hlt x (by simp [hx]))]
    have harith : 16 * (b / 16) + b % 16 = b := by omega
    cases pctDecodeBytes rest <;> simp [harith]

theorem strBytes_flat_pct (bs : List Nat) (hlt : ∀ b ∈ bs, b < 256) :
    strBytes (flat pctTriple bs) =
      flat (fun b => [37, (hexUpper (b / 16)).toNat, (hexUpper (b % 16)).toNat]) bs := by
  induction bs with
  | nil => rfl
  | cons b bs ih =>
    rw [flat, flat, strBytes_append, strBytes_pctTriple b (hlt b (by simp)),
      ih (fun x hx => hlt x (by simp [hx]))]

theorem strBytes_encChar_pct (c : Char) (hu : isUnreservedURI c.toNat = false) :
    strBytes (encChar c) =
      flat (fun b => [37, (hexUpper (b / 16)).toNat, (hexUpper (b % 16)).toNat])
        (charBytes c) := by
  rw [encChar, if_neg (by simp [hu])]
  exact strBytes_flat_pct _ (utf8Bytes_lt256 c.toNat (char_toNat_lt c))

theorem pctDecodeBytes_cons_ne (b : Nat) (hb : b ≠ 37) (rest : List Nat) :
    pctDecodeBytes (b :: rest) = (pctDecodeBytes rest).map (fun l => b :: l) := by
  cases rest with
  | nil => simp [pctDecodeBytes, hb]
  | cons h1 t =>
    cases t with
    | nil => simp [pctDecodeBytes, hb]
    | cons h2 t2 => simp [pctDecodeBytes, hb]

theorem pct_unit (c : Char) (rest : List Nat) :
    pctDecodeBytes (strBytes (encPChar c) ++ rest) =
      (pctDecodeBytes rest).map (fun l => charBytes c ++ l) := by
  rw [encPChar]
  by_cases hs : c == '/'
  · rw [if_pos hs]
    have hc : c = '/' := by simpa using hs
    subst hc
    show pctDecodeBytes (47 :: rest) = Option.map (fun l => charBytes '/' ++ l) _
    rw [pctDecodeBytes_cons_ne 47 (by omega) rest, show charBytes '/' = [47] from rfl]
    cases pctDecodeBytes rest <;> simp
  · rw [if_neg hs]
    by_cases hu : isUnreservedURI c.toNat
    · rw [encChar, if_pos hu]
      have hascii : c.toNat < 128 := unreserved_lt128 hu
      have hne37 : c.toNat ≠ 37 := by
        intro he
        rw [he] at hu
        exact absurd hu (by decide)
      show pctDecodeBytes (strBytes [c] ++ rest) = _
      rw [show strBytes [c] = charBytes c ++ [] from rfl, List.append_nil,
        charBytes_ascii c hascii]
      show pctDecodeBytes (c.toNat :: rest) = _
      rw [pctDecodeBytes_cons_ne c.toNat hne37 rest]
      cases pctDecodeBytes rest <;> simp
    · rw [strBytes_encChar_pct c (by simpa using hu)]
      exact pct_triple_decode (charBytes c)
        (utf8Bytes_lt256 c.toNat (char_toNat_lt c)) rest

theorem pct_master (cs : List Char) (rest : List Nat) :
    pctDecodeBytes (strBytes (encPathChars cs) ++ rest) =
      (pctDecodeBytes rest).map (fun l => strBytes cs ++ l) := by
  induction cs generalizing rest with
  | nil =>
    show pctDecodeBytes rest = _
    cases pctDecodeBytes rest <;> simp [strBytes, flat]
  | cons c cs2 ih =>
    rw [encPathChars, flat]
    rw [strBytes_append, List.append_assoc]
    rw [pct_unit c _]
    rw [show flat encPChar cs2 = encPathChars cs2 from rfl, ih rest]
    cases pctDecodeBytes rest <;> simp [strBytes, flat]

theorem char_ofNat_toNat (c : Char) : Char.ofNat c.toNat = c := by
  have hbr : c.toNat = c.val.toNat := rfl
  have hv : c.toNat.isValidChar := by
    rcases c.valid with h | ⟨h1, h2⟩
    · exact Or.inl (by omega)
    · exact Or.inr ⟨by omega, by omega⟩
  apply Char.ext
  unfold Char.ofNat
  rw [dif_pos hv]
  rfl

theorem utf8Step_charBytes (c : Char) (rest : List Nat) :
    utf8Step (charBytes c ++ rest) = some (c, rest) := by
  have hvr : c.toNat < 55296 ∨ (57344 ≤ c.toNat ∧ c.toNat < 1114112) := by
    have hbr : c.toNat = c.val.toNat := rfl
    rcases c.valid with h | ⟨h1, h2⟩
    · exact Or.inl (by omega)
    · exact Or.inr ⟨by omega, by omega⟩
  rw [charBytes, utf8Bytes]
  by_cases h1 : c.toNat < 128
  · rw [if_pos h1]
    show utf8Step (c.toNat :: rest) = _
    rw [utf8Step, if_pos h1, char_ofNat_toNat]
  · rw [if_neg h1]
    by_cases h2 : c.toNat < 2048
    · rw [if_pos h2]
      show utf8Step ((192 + c.toNat / 64) :: (128 + c.toNat % 64) :: rest) = _
      rw [utf8Step]
      rw [if_neg (by omega), if_neg (by omega), if_pos (by omega)]
      rw [if_pos]
      · have harg : (192 + c.toNat / 64 - 192) * 64 +
            (((128 + c.toNat % 64) :: rest).headD 0 - 128) = c.toNat := by
          simp only [List.headD_cons]
          omega
        rw [harg, char_ofNat_toNat]
        rfl
      · simp only [List.length_cons, List.headD_cons, isContByte, Bool.and_eq_true,
          decide_eq_true_eq]
        constructor
        · omega
        · constructor <;> omega
    · by_cases h3 : c.toNat < 65536
      · rw [if_neg h2, if_pos h3]
        show utf8Step ((224 + c.toNat / 4096) :: (128 + c.toNat / 64 % 64) ::
          (128 + c.toNat % 64) :: rest) = _
        rw [utf8Step]
        rw [if_neg (by omega), if_neg (by omega), if_neg (by omega), if_pos (by omega)]
        rw [if_pos]
        · have harg : (224 + c.toNat / 4096 - 224) * 4096 +
              (((128 + c.toNat / 64 % 64) :: (128 + c.toNat % 64) :: rest).headD 0 - 128) * 64 +
              (((128 + c.toNat / 64 % 64) :: (128 + c.toNat % 64) :: rest).tail.headD 0 - 128) =
              c.toNat := by
            simp only [List.headD_cons, List.tail_cons]
            omega
          rw [harg, char_ofNat_toNat]
          rfl
        · simp only [List.length_cons, List.headD_cons, List.tail_cons, isContByte,
            Bool.and_eq_true, decide_eq_true_eq, Bool.not_eq_true', Bool.and_eq_false_iff,
            decide_eq_false_iff_not]
          refine ⟨⟨⟨⟨by omega, by omega, by omega⟩, by omega, by omega⟩, by omega⟩, ?hs⟩
          omega
      · rw [if_neg h2, if_neg h3]
        show utf8Step ((240 + c.toNat / 262144) :: (128 + c.toNat / 4096 % 64) ::
          (128 + c.toNat / 64 % 64) :: (128 + c.toNat % 64) :: rest) = _
        rw [utf8Step]
        rw [if_neg (by omega), if_neg (by omega), if_neg (by omega), if_neg (by omega),
          if_pos (by omega)]
        rw [if_pos]
        · have harg : (240 + c.toNat / 262144 - 240) * 262144 +
              (((128 + c.toNat / 4096 % 64) :: (128 + c.toNat / 64 % 64) ::
                (128 + c.toNat % 64) :: rest).headD 0 - 128) * 4096 +
              (((128 + c.toNat / 4096 % 64) :: (128 + c.toNat / 64 % 64) ::
                (128 + c.toNat % 64) :: rest).tail.headD 0 - 128) * 64 +
              (((128 + c.toNat / 4096 % 64) :: (128 + c.toNat / 64 % 64) ::
                (128 + c.toNat % 64) :: rest).tail.tail.headD 0 - 128) = c.toNat := by
            simp only [List.headD_cons, List.tail_cons]
            omega
          rw [harg, char_ofNat_toNat]
          rfl
        · simp only [List.length_cons, List.headD_cons, List.tail_cons, isContByte,
            Bool.and_eq_true, decide_eq_true_eq]
          refine ⟨⟨⟨⟨⟨by omega, by omega, by omega⟩, by omega, by omega⟩,
            by omega, by omega⟩, by omega⟩, by omega⟩

theorem charBytes_ne_nil (c : Char) : charBytes c ≠ [] := by
  rw [charBytes, utf8Bytes]
  split_ifs <;> simp

theorem utf8DecodeGo_nil (fuel : Nat) : utf8DecodeGo fuel [] = some [] := by
  cases fuel <;> rfl

theorem utf8DecodeGo_unit (c : Char) (fuel : Nat) (rest : List Nat) :
    utf8DecodeGo (fuel + 1) (charBytes c ++ rest) =
      (utf8DecodeGo fuel rest).map (fun cs => c :: cs) := by
  have hstep := utf8Step_charBytes c rest
  rcases hcb : charBytes c with _ | ⟨b, bs⟩
  · exact absurd hcb (charBytes_ne_nil c)
  · rw [hcb] at hstep
    rw [List.cons_append] at hstep ⊢
    rw [utf8DecodeGo, hstep]
    rfl

theorem utf8DecodeGo_master (cs : List Char) (fuel : Nat) (rest : List Nat) :
    utf8DecodeGo (cs.length + fuel) (strBytes cs ++ rest) =
      (utf8DecodeGo fuel rest).map (fun l => cs ++ l) := by
  induction cs generalizing rest with
  | nil =>
    simp only [List.length_nil, Nat.zero_add]
    show utf8DecodeGo fuel rest = _
    cases utf8DecodeGo fuel rest <;> simp
  | cons c cs2 ih =>
    rw [show (c :: cs2).length + fuel = cs2.length + fuel + 1 from by
      simp only [List.length_cons]; omega]
    rw [show strBytes (c :: cs2) = charBytes c ++ strBytes cs2 from rfl,
      List.append_assoc, utf8DecodeGo_unit c (cs2.length + fuel) _, ih]
    cases utf8DecodeGo fuel rest <;> simp

theorem length_le_strBytes (cs : List Char) : cs.length ≤ (strBytes cs).length := by
  induction cs with
  | nil => simp [strBytes, flat]
  | cons c cs2 ih =>
    rw [show strBytes (c :: cs2) = charBytes c ++ strBytes cs2 from rfl]
    have hpos : 0 < (charBytes c).length := List.length_pos.mpr (charBytes_ne_nil c)
    simp only [List.length_cons, List.length_append]
    omega

theorem utf8Decode_strBytes (cs : List Char) : utf8Decode (strBytes cs) = some cs := by
  have hle := length_le_strBytes cs
  have h := utf8DecodeGo_master cs ((strBytes cs).length - cs.length) []
  rw [List.append_nil, utf8DecodeGo_nil,
    show cs.length + ((strBytes cs).length - cs.length) = (strBytes cs).length from by
      omega] at h
  rw [utf8Decode, h]
  simp

/-! Claim C2, continued: the percent-decode, UTF-8, dot-segment and URL
parsing layers composed into the round-trip theorem. -/

theorem decode_encPath (cs : List Char) :
    decodeURIComponent ⟨encPathChars cs⟩ = some ⟨cs⟩ := by
  have hp := pct_master cs []
  rw [List.append_nil] at hp
  have hp2 : pctDecodeBytes (strBytes (encPathChars cs)) = some (strBytes cs) := by
    rw [hp, show pctDecodeBytes [] = some [] from rfl]
    simp
  rw [decodeURIComponent]
  rw [show (String.mk (encPathChars cs)).data = encPathChars cs from rfl, hp2]
  show (utf8Decode (strBytes cs)).map (fun l => (⟨l⟩ : String)) = some ⟨cs⟩
  rw [utf8Decode_strBytes]
  rfl

theorem dotNorm_cons_ne (c : Char) (hc : ¬ c = '%') (l : List Char) :
    dotNorm (c :: l) = c :: dotNorm l := by
  have hb : ¬ (c == '%') = true := by simpa using hc
  rcases l with _ | ⟨c2, l2⟩
  · rfl
  · rcases l2 with _ | ⟨c3, l3⟩
    · conv_lhs => rw [dotNorm]
      rw [if_neg hb]
    · conv_lhs => rw [dotNorm]
      rw [if_neg hb]

theorem dotNorm_pct_keep (c2 c3 : Char)
    (h23 : ¬ ((c2 == '2') && (c3 == 'e' || c3 == 'E')) = true) (l : List Char) :
    dotNorm ('%' :: c2 :: c3 :: l) = '%' :: dotNorm (c2 :: c3 :: l) := by
  conv_lhs => rw [dotNorm]
  rw [if_pos (show ('%' == '%') = true from rfl), if_neg h23]

theorem hexUpper_ne_pct (v : Nat) (hv : v < 16) : ¬ hexUpper v = '%' := by
  intro he
  have : (hexUpper v).toNat = 37 := by rw [he]; rfl
  rw [hexUpper_toNat v hv] at this
  by_cases h : v < 10 <;> simp [h] at this <;> omega

theorem dotNorm_triples (bs : List Nat) (hlt : ∀ b ∈ bs, b < 256)
    (h46 : ∀ b ∈ bs, b ≠ 46) (l : List Char) :
    dotNorm (flat pctTriple bs ++ l) = flat pctTriple bs ++ dotNorm l := by
  induction bs with
  | nil => rfl
  | cons b bs2 ih =>
    have hb : b < 256 := hlt b (by simp)
    have hb46 : b ≠ 46 := h46 b (by simp)
    rw [flat, List.append_assoc]
    show dotNorm (Char.ofNat 37 :: hexUpper (b / 16) :: hexUpper (b % 16) ::
      (flat pctTriple bs2 ++ l)) = _
    have h23 : ¬ ((hexUpper (b / 16) == '2') &&
        (hexUpper (b % 16) == 'e' || hexUpper (b % 16) == 'E')) = true := by
      intro hcontra
      simp only [Bool.and_eq_true, Bool.or_eq_true, beq_iff_eq] at hcontra
      obtain ⟨h2, h3⟩ := hcontra
      have hv2 : (hexUpper (b / 16)).toNat = ('2' : Char).toNat := by rw [h2]
      rw [hexUpper_toNat (b / 16) (by omega)] at hv2
      have hd : b / 16 = 2 := by
        by_cases h : b / 16 < 10 <;> simp [h] at hv2 <;> omega
      rcases h3 with h3 | h3
      · have hv3 : (hexUpper (b % 16)).toNat = ('e' : Char).toNat := by rw [h3]
        rw [hexUpper_toNat (b % 16) (by omega)] at hv3
        by_cases h : b % 16 < 10 <;> simp [h] at hv3 <;> omega
      · have hv3 : (hexUpper (b % 16)).toNat = ('E' : Char).toNat := by rw [h3]
        rw [hexUpper_toNat (b % 16) (by omega)] at hv3
        have hm : b % 16 = 14 := by
          by_cases h : b % 16 < 10 <;> simp [h] at hv3 <;> omega
        omega
    rw [show (Char.ofNat 37) = '%' from rfl, dotNorm_pct_keep _ _ h23,
      dotNorm_cons_ne _ (hexUpper_ne_pct (b / 16) (by omega)),
      dotNorm_cons_ne _ (hexUpper_ne_pct (b % 16) (by omega)),
      ih (fun x hx => hlt x (by simp [hx])) (fun x hx => h46 x (by simp [hx]))]
    rfl

theorem charBytes_ne46 (c : Char) (hu : isUnreservedURI c.toNat = false) :
    ∀ b ∈ charBytes c, b ≠ 46 := by
  intro b hb
  by_cases h1 : c.toNat < 128
  · rw [charBytes_ascii c h1] at hb
    simp at hb
    subst hb
    intro he
    rw [he] at hu
    exact absurd hu (by decide)
  · have := utf8Bytes_ge128 c.toNat (by omega) b hb
    omega

theorem dotNorm_encSeg (seg : List Char) (l : List Char) :
    dotNorm (flat encChar seg ++ l) = flat encChar seg ++ dotNorm l := by
  induction seg with
  | nil => rfl
  | cons c seg2 ih =>
    rw [flat, List.append_assoc]
    by_cases hu : isUnreservedURI c.toNat
    · rw [encChar, if_pos hu]
      have hc : ¬ c = '%' := by
        intro he
        rw [he] at hu
        exact absurd hu (by decide)
      show dotNorm (c :: (flat encChar seg2 ++ l)) = _
      rw [dotNorm_cons_ne c hc, ih]
      rfl
    · rw [encChar, if_neg hu]
      rw [dotNorm_triples (charBytes c) (utf8Bytes_lt256 c.toNat (char_toNat_lt c))
        (charBytes_ne46 c (by simpa using hu)), ih]
      rw [List.append_assoc]

theorem dotNorm_encSeg_id (seg : List Char) :
    dotNorm (flat encChar seg) = flat encChar seg := by
  have h := dotNorm_encSeg seg []
  rw [List.append_nil, show dotNorm ([] : List Char) = [] from rfl, List.append_nil] at h
  exact h

theorem flat_pctTriple_length (bs : List Nat) :
    (flat pctTriple bs).length = 3 * bs.length := by
  induction bs with
  | nil => rfl
  | cons b bs2 ih =>
    rw [flat, List.length_append, ih]
    simp [pctTriple]
    omega

theorem encChar_shape (c : Char) :
    (encChar c = [c] ∧ isUnreservedURI c.toNat = true) ∨ 3 ≤ (encChar c).length := by
  rw [encChar]
  by_cases hu : isUnreservedURI c.toNat
  · rw [if_pos hu]
    exact Or.inl ⟨rfl, hu⟩
  · rw [if_neg hu]
    refine Or.inr ?h3
    rw [flat_pctTriple_length]
    have hne := charBytes_ne_nil c
    have hpos : 0 < (charBytes c).length := List.length_pos.mpr hne
    omega

theorem encChar_ne_nil (c : Char) : encChar c ≠ [] := by
  rcases encChar_shape c with ⟨h1, _⟩ | h3
  · rw [h1]
    simp
  · intro he
    rw [he] at h3
    simp at h3

theorem encSeg_eq_dot (seg : List Char) : flat encChar seg = ['.'] ↔ seg = ['.'] := by
  constructor
  · intro h
    cases seg with
    | nil => simp [flat] at h
    | cons c seg2 =>
      rw [flat] at h
      rcases encChar_shape c with ⟨h1, hu⟩ | h3
      · rw [h1] at h
        rw [List.cons_append] at h
        rw [List.cons.injEq] at h
        obtain ⟨hc, hrest⟩ := h
        subst hc
        have hnil : seg2 = [] := by
          simp only [List.nil_append] at hrest
          exact (flat_eq_nil_iff encChar seg2 (fun x _ => encChar_ne_nil x)).mp hrest
        subst hnil
        rfl
      · have hlen := congrArg List.length h
        rw [List.length_append] at hlen
        simp at hlen
        omega
  · intro h
    subst h
    decide

theorem encSeg_eq_dotdot (seg : List Char) :
    flat encChar seg = ['.', '.'] ↔ seg = ['.', '.'] := by
  constructor
  · intro h
    cases seg with
    | nil => simp [flat] at h
    | cons c seg2 =>
      rw [flat] at h
      rcases encChar_shape c with ⟨h1, hu⟩ | h3
      · rw [h1, List.cons_append, List.cons.injEq] at h
        obtain ⟨hc, hrest⟩ := h
        subst hc
        have h2 : seg2 = ['.'] := (encSeg_eq_dot seg2).mp hrest
        subst h2
        rfl
      · have hlen := congrArg List.length h
        rw [List.length_append] at hlen
        simp at hlen
        omega
  · intro h
    subst h
    decide

theorem isSingleDot_enc (seg : List Char) (hne : seg ≠ ['.']) :
    isSingleDot (flat encChar seg) = false := by
  rw [isSingleDot, dotNorm_encSeg_id]
  rw [beq_eq_false_iff_ne]
  intro h
  exact hne ((encSeg_eq_dot seg).mp h)

theorem isDoubleDot_enc (seg : List Char) (hne : seg ≠ ['.', '.']) :
    isDoubleDot (flat encChar seg) = false := by
  rw [isDoubleDot, dotNorm_encSeg_id]
  rw [beq_eq_false_iff_ne]
  intro h
  exact hne ((encSeg_eq_dotdot seg).mp h)

theorem splitOnSlash_ne_nil (l : List Char) : splitOnSlash l ≠ [] := by
  cases l with
  | nil => simp [splitOnSlash]
  | cons c rest =>
    rw [splitOnSlash]
    by_cases hc : (c == '/') = true
    · rw [if_pos hc]
      simp
    · rw [if_neg hc]
      rcases h : splitOnSlash rest with _ | ⟨g, gs⟩
      · simp
      · simp

theorem splitOnSlash_chunk (chunk : List Char) (hch : ∀ c ∈ chunk, ¬ (c == '/') = true)
    (l : List Char) (g : List Char) (gs : List (List Char))
    (h : splitOnSlash l = g :: gs) :
    splitOnSlash (chunk ++ l) = (chunk ++ g) :: gs := by
  induction chunk with
  | nil => simpa using h
  | cons c ch2 ih =>
    rw [List.cons_append, splitOnSlash,
      if_neg (hch c (by simp)), ih (fun x hx => hch x (by simp [hx]))]
    rfl

theorem splitOnSlash_enc (cs : List Char) :
    splitOnSlash (flat encPChar cs) = (splitOnSlash cs).map (flat encChar) := by
  induction cs with
  | nil => rfl
  | cons c cs2 ih =>
    rw [flat]
    by_cases hc : (c == '/') = true
    · have hc2 : c = '/' := by simpa using hc
      subst hc2
      rw [show encPChar '/' = ['/'] from rfl, List.cons_append, List.nil_append]
      rw [splitOnSlash, if_pos hc, ih]
      rw [splitOnSlash, if_pos hc]
      rfl
    · rw [show encPChar c = encChar c from by rw [encPChar, if_neg hc]]
      rcases hsp : splitOnSlash cs2 with _ | ⟨g, gs⟩
      · exact absurd hsp (splitOnSlash_ne_nil cs2)
      · rw [splitOnSlash_chunk (encChar c)
          (fun x hx => by
            have := (encChar_mem_toNat c x hx).2.1
            intro hbeq
            have hxc : x = '/' := by simpa using hbeq
            rw [hxc] at this
            exact this rfl)
          (flat encPChar cs2) (flat encChar g) (gs.map (flat encChar))
          (by rw [ih, hsp]; rfl)]
        rw [splitOnSlash, if_neg hc, hsp]
        rfl

theorem joinSlash_cons2 (s t : List Char) (rest : List (List Char)) :
    joinSlash (s :: t :: rest) = s ++ '/' :: joinSlash (t :: rest) := rfl

theorem join_cons_app (a g : List Char) (gs : List (List Char)) :
    joinSlash ((a ++ g) :: gs) = a ++ joinSlash (g :: gs) := by
  cases gs with
  | nil => rfl
  | cons t r =>
    rw [joinSlash_cons2, joinSlash_cons2, List.append_assoc]

theorem joinSlash_enc (cs : List Char) :
    joinSlash ((splitOnSlash cs).map (flat encChar)) = flat encPChar cs := by
  induction cs with
  | nil => rfl
  | cons c cs2 ih =>
    by_cases hc : (c == '/') = true
    · have hc2 : c = '/' := by simpa using hc
      subst hc2
      rcases hsp : splitOnSlash cs2 with _ | ⟨g, gs⟩
      · exact absurd hsp (splitOnSlash_ne_nil cs2)
      · rw [hsp, List.map_cons] at ih
        rw [splitOnSlash, if_pos hc, hsp, List.map_cons, List.map_cons]
        rw [show flat encChar [] = [] from rfl]
        rw [joinSlash_cons2 [] (flat encChar g) (gs.map (flat encChar))]
        rw [List.nil_append, ih]
        rfl
    · rw [splitOnSlash, if_neg hc]
      rcases hsp : splitOnSlash cs2 with _ | ⟨g, gs⟩
      · exact absurd hsp (splitOnSlash_ne_nil cs2)
      · rw [hsp] at ih
        rw [List.map_cons]
        rw [show flat encChar (c :: g) = encChar c ++ flat encChar g from rfl]
        rw [join_cons_app, List.map_cons] at *
        rw [ih]
        rw [flat, encPChar, if_neg hc]

theorem procSegs_no_dots (segs : List (List Char))
    (h : ∀ s ∈ segs, isDoubleDot s = false ∧ isSingleDot s = false) :
    ∀ acc, procSegs acc segs = acc.reverse ++ segs := by
  induction segs with
  | nil =>
    intro acc
    rw [procSegs, List.append_nil]
  | cons s rest ih =>
    intro acc
    cases rest with
    | nil =>
      rw [procSegs, if_neg (by rw [(h s (by simp)).1]; simp),
        if_neg (by rw [(h s (by simp)).2]; simp)]
    | cons s2 rest2 =>
      rw [procSegs, if_neg (by rw [(h s (by simp)).1]; simp),
        if_neg (by rw [(h s (by simp)).2]; simp)]
      rw [ih (fun x hx => h x (by simp [hx])) (s :: acc)]
      · simp
      · intro hcontra
        exact absurd hcontra (by simp)

theorem serializePath_cons (g : List Char) (gs : List (List Char)) :
    serializePath (g :: gs) = '/' :: joinSlash (g :: gs) := by
  induction gs generalizing g with
  | nil =>
    rw [serializePath, flat, flat]
    rw [show joinSlash [g] = g from rfl, List.append_nil]
  | cons t r ih =>
    rw [serializePath, flat]
    rw [show flat (fun s => '/' :: s) (t :: r) = serializePath (t :: r) from rfl, ih t]
    rw [joinSlash_cons2]
    simp

theorem mem_flat (f : α → List β) (l : List α) (x : β) (hx : x ∈ flat f l) :
    ∃ a ∈ l, x ∈ f a := by
  induction l with
  | nil => cases hx
  | cons a as ih =>
    rw [flat] at hx
    rcases List.mem_append.mp hx with h | h
    · exact ⟨a, by simp, h⟩
    · obtain ⟨b, hb, hxb⟩ := ih h
      exact ⟨b, by simp [hb], hxb⟩

theorem map_id_of (f : α → α) (l : List α) (h : ∀ x ∈ l, f x = x) : l.map f = l := by
  induction l with
  | nil => rfl
  | cons a as ih =>
    rw [List.map_cons, h a (by simp), ih (fun x hx => h x (by simp [hx]))]

theorem takeWhile_app (p : α → Bool) (l1 : List α) (x : α) (l2 : List α)
    (h1 : ∀ c ∈ l1, p c = true) (hx : p x = false) :
    (l1 ++ x :: l2).takeWhile p = l1 := by
  induction l1 with
  | nil =>
    rw [List.nil_append, List.takeWhile_cons, hx]
    simp
  | cons c rest ih =>
    rw [List.cons_append, List.takeWhile_cons, h1 c (by simp),
      ih (fun a ha => h1 a (by simp [ha]))]
    simp

theorem dropWhile_app (p : α → Bool) (l1 : List α) (x : α) (l2 : List α)
    (h1 : ∀ c ∈ l1, p c = true) (hx : p x = false) :
    (l1 ++ x :: l2).dropWhile p = x :: l2 := by
  induction l1 with
  | nil =>
    rw [List.nil_append, List.dropWhile_cons, hx]
    simp
  | cons c rest ih =>
    rw [List.cons_append, List.dropWhile_cons, h1 c (by simp)]
    simp only [if_true]
    exact ih (fun a ha => h1 a (by simp [ha]))

theorem pathEncChar_id (x : Char)
    (hx : x.toNat = 37 ∨ isUnreservedURI x.toNat = true ∨ (∃ v, v < 16 ∧ x = hexUpper v)) :
    pathEncChar x = [x] := by
  have hcond : (x.toNat ≤ 31 || 127 ≤ x.toNat || x.toNat == 32 || x.toNat == 34 ||
      x.toNat == 35 || x.toNat == 60 || x.toNat == 62 || x.toNat == 63 ||
      x.toNat == 96 || x.toNat == 123 || x.toNat == 125) = false := by
    simp only [Bool.or_eq_false_iff, decide_eq_false_iff_not, beq_eq_false_iff_ne,
      ne_eq]
    rcases hx with h37 | hu | ⟨v, hv, hxv⟩
    · omega
    · rw [isUnreservedURI] at hu
      simp only [Bool.or_eq_true, Bool.and_eq_true, decide_eq_true_eq, beq_iff_eq] at hu
      omega
    · have hn : x.toNat = if v < 10 then 48 + v else 55 + v := by
        rw [hxv, hexUpper_toNat v hv]
      have hn2 : 48 ≤ x.toNat ∧ x.toNat ≤ 57 ∨ 65 ≤ x.toNat ∧ x.toNat ≤ 70 := by
        by_cases h : v < 10
        · rw [if_pos h] at hn
          left
          omega
        · rw [if_neg h] at hn
          right
          omega
      omega
  rw [pathEncChar]
  show (if (x.toNat ≤ 31 || 127 ≤ x.toNat || x.toNat == 32 || x.toNat == 34 ||
      x.toNat == 35 || x.toNat == 60 || x.toNat == 62 || x.toNat == 63 ||
      x.toNat == 96 || x.toNat == 123 || x.toNat == 125) = true then
    flat pctTriple (charBytes x) else [x]) = [x]
  rw [hcond]
  simp

theorem pathEnc_encSeg (seg : List Char) :
    flat pathEncChar (flat encChar seg) = flat encChar seg := by
  apply flat_id_of
  intro x hx
  obtain ⟨a, _, hxa⟩ := mem_flat encChar seg x hx
  apply pathEncChar_id
  rcases encChar_mem a x hxa with ⟨hu, hxc⟩ | hx1 | ⟨v, hv, hxv⟩
  · subst hxc
    exact Or.inr (Or.inl hu)
  · subst hx1
    exact Or.inl rfl
  · exact Or.inr (Or.inr ⟨v, hv, hxv⟩)

theorem string_eta (s : String) : String.mk s.data = s := by
  obtain ⟨d⟩ := s
  rfl

theorem encodePath_eq (key : String) :
    encodePathPreservingSlashes key = ⟨flat encPChar key.data⟩ := by
  rw [encodePathPreservingSlashes]
  exact congrArg String.mk (joinSlash_enc key.data)

theorem mem_encPath (cs : List Char) (x : Char) (hx : x ∈ flat encPChar cs) :
    x = '/' ∨ ∃ c0, x ∈ encChar c0 := by
  obtain ⟨a, _, hxa⟩ := mem_flat encPChar cs x hx
  rw [encPChar] at hxa
  by_cases ha : (a == '/') = true
  · rw [if_pos ha] at hxa
    simp at hxa
    subst hxa
    exact Or.inl (by simpa using ha)
  · rw [if_neg ha] at hxa
    exact Or.inr ⟨a, hxa⟩

theorem data_append (a b : String) : (a ++ b).data = a.data ++ b.data := rfl

theorem urlPathname_presign (host key tailq : String)
    (hhostne : host.data ≠ [])
    (hhost : ∀ c ∈ host.data, isAuthorityEnd c = false) :
    urlPathname ("https://" ++ host ++ ("/" ++ encodePathPreservingSlashes key) ++
        "?" ++ tailq) =
      some ⟨serializePath ((procSegs []
          (splitOnSlash (flat encPChar key.data))).map (flat pathEncChar))⟩ := by
  have hdata : ("https://" ++ host ++ ("/" ++ encodePathPreservingSlashes key) ++
      "?" ++ tailq).data =
      "https://".data ++ (host.data ++
        ('/' :: (flat encPChar key.data ++ ('?' :: tailq.data)))) := by
    simp only [data_append, encodePath_eq]
    simp [List.append_assoc]
  rw [urlPathname]
  simp only [hdata]
  rw [if_pos (List.isPrefixOf_iff_prefix.mpr (List.prefix_append _ _))]
  rw [show (8 : Nat) = ("https://".data : List Char).length from rfl, List.drop_left]
  rw [takeWhile_app _ host.data '/' _
    (fun c hc => by rw [hhost c hc]; rfl) (by decide)]
  rw [dropWhile_app _ host.data '/' _
    (fun c hc => by rw [hhost c hc]; rfl) (by decide)]
  rw [if_neg (by
    intro hemp
    exact hhostne (List.isEmpty_iff.mp hemp))]
  rw [show ('/' :: (flat encPChar key.data ++ ('?' :: tailq.data))) =
    (('/' :: flat encPChar key.data) ++ ('?' :: tailq.data)) from by
      rw [List.cons_append]]
  rw [takeWhile_app _ ('/' :: flat encPChar key.data) '?' tailq.data
    (fun c hc => by
      rcases List.mem_cons.mp hc with h | h
      · subst h
        decide
      · rcases mem_encPath key.data c h with h2 | ⟨c0, h2⟩
        · subst h2
          decide
        · have hfacts := encChar_mem_toNat c0 c h2
          have h63 : ¬ c = '?' := by
            intro he
            rw [he] at hfacts
            exact hfacts.2.2.2.1 rfl
          have h35 : ¬ c = '#' := by
            intro he
            rw [he] at hfacts
            exact hfacts.2.2.2.2 rfl
          simp [h63, h35])
    (by decide)]
  rw [map_id_of _ ('/' :: flat encPChar key.data)
    (fun c hc => by
      rcases List.mem_cons.mp hc with h | h
      · subst h
        rfl
      · rcases mem_encPath key.data c h with h2 | ⟨c0, h2⟩
        · subst h2
          rfl
        · have hfacts := encChar_mem_toNat c0 c h2
          have h92 : ¬ (c == (Char.ofNat 92)) = true := by
            intro he
            have hcc : c = Char.ofNat 92 := by simpa using he
            rw [hcc] at hfacts
            exact hfacts.2.2.1 (by decide)
          rw [if_neg h92])]

theorem data_ext (a b : String) (h : a.data = b.data) : a = b := by
  obtain ⟨da⟩ := a
  obtain ⟨db⟩ := b
  have h2 : da = db := by simpa using h
  rw [h2]

theorem urlPath_final (key : String)
    (hdots : ∀ seg ∈ splitOnSlash key.data, seg ≠ ['.'] ∧ seg ≠ ['.', '.']) :
    (⟨serializePath ((procSegs [] (splitOnSlash (flat encPChar key.data))).map
        (flat pathEncChar))⟩ : String) = ⟨'/' :: flat encPChar key.data⟩ := by
  rw [splitOnSlash_enc]
  rw [procSegs_no_dots _ (fun s hs => by
    obtain ⟨seg0, hseg0, hfs⟩ := List.mem_map.mp hs
    subst hfs
    exact ⟨isDoubleDot_enc seg0 (hdots seg0 hseg0).2,
      isSingleDot_enc seg0 (hdots seg0 hseg0).1⟩) []]
  rw [List.reverse_nil, List.nil_append]
  rw [map_id_of _ _ (fun s hs => by
    obtain ⟨seg0, _, hfs⟩ := List.mem_map.mp hs
    subst hfs
    exact pathEnc_encSeg seg0)]
  rcases hsp : splitOnSlash key.data with _ | ⟨g, gs⟩
  · exact absurd hsp (splitOnSlash_ne_nil key.data)
  · rw [List.map_cons, serializePath_cons]
    rw [show flat encChar g :: gs.map (flat encChar) =
      (splitOnSlash key.data).map (flat encChar) from by rw [hsp]; rfl]
    rw [joinSlash_enc]

theorem dropSlash_encPath (cs : List Char) (hne : cs ≠ [])
    (hhead : cs.head? ≠ some '/') :
    List.dropWhile (fun c => c == '/') (flat encPChar cs) = flat encPChar cs := by
  rcases cs with _ | ⟨c0, rest⟩
  · exact absurd rfl hne
  · have hc0 : ¬ (c0 == '/') = true := by
      intro hb
      exact hhead (by simpa using congrArg (fun c => some c) (show c0 = '/' by simpa using hb))
    rw [flat, show encPChar c0 = encChar c0 from by rw [encPChar, if_neg hc0]]
    rcases hec : encChar c0 with _ | ⟨x, xs⟩
    · exact absurd hec (encChar_ne_nil c0)
    · rw [List.cons_append, List.dropWhile_cons]
      have hx : x ∈ encChar c0 := by rw [hec]; simp
      have hx47 := (encChar_mem_toNat c0 x hx).2.1
      rw [show (x == '/') = false from by
        rw [beq_eq_false_iff_ne]
        intro he
        rw [he] at hx47
        exact hx47 rfl]
      simp

theorem extractKey_presigned (bucket key host tailq : String)
    (hkne : key.data ≠ [])
    (hkhead : key.data.head? ≠ some '/')
    (hdots : ∀ seg ∈ splitOnSlash key.data, seg ≠ ['.'] ∧ seg ≠ ['.', '.'])
    (hbucket : ((bucket ++ "/").data.isPrefixOf key.data) = false)
    (hhostne : host.data ≠ [])
    (hhost : ∀ c ∈ host.data, isAuthorityEnd c = false) :
    extractKeyFromUrl bucket
      ("https://" ++ host ++ ("/" ++ encodePathPreservingSlashes key) ++ "?" ++ tailq) =
      some key := by
  rw [extractKeyFromUrl, urlPathname_presign host key tailq hhostne hhost,
    urlPath_final key hdots]
  show (match decodeURIComponent
      ⟨List.dropWhile (fun c => c == '/') ('/' :: flat encPChar key.data)⟩ with
    | none => none
    | some path =>
      some (if (bucket ++ "/").data.isPrefixOf path.data = true then
              (⟨path.data.drop (bucket.data.length + 1)⟩ : String)
            else path)) = some key
  rw [List.dropWhile_cons]
  rw [show (('/' : Char) == '/') = true from rfl]
  simp only [if_true]
  rw [dropSlash_encPath key.data hkne hkhead]
  rw [show (flat encPChar key.data) = encPathChars key.data from rfl,
    decode_encPath key.data, string_eta]
  show some (if (bucket ++ "/").data.isPrefixOf key.data = true then
      (⟨key.data.drop (bucket.data.length + 1)⟩ : String) else key) = some key
  rw [hbucket]
  simp

theorem str_ne_data (s : String) (h : s ≠ "") : s.data ≠ [] := by
  intro hd
  exact h (data_ext s "" hd)

theorem mp4_ne_empty (id : String) : ¬ (id ++ ".mp4") = "" := by
  intro h
  have hd := congrArg String.data h
  rw [data_append] at hd
  rcases List.append_eq_nil.mp hd with ⟨_, h2⟩
  exact absurd h2 (by decide)

theorem extractKey_presigned3 (bucket key host t1 t2 t3 : String)
    (hkne : key.data ≠ [])
    (hkhead : key.data.head? ≠ some '/')
    (hdots : ∀ seg ∈ splitOnSlash key.data, seg ≠ ['.'] ∧ seg ≠ ['.', '.'])
    (hbucket : ((bucket ++ "/").data.isPrefixOf key.data) = false)
    (hhostne : host.data ≠ [])
    (hhost : ∀ c ∈ host.data, isAuthorityEnd c = false) :
    extractKeyFromUrl bucket
      ("https://" ++ host ++ ("/" ++ encodePathPreservingSlashes key) ++ "?" ++
        t1 ++ t2 ++ t3) = some key := by
  rw [show ("https://" ++ host ++ ("/" ++ encodePathPreservingSlashes key) ++ "?" ++
        t1 ++ t2 ++ t3) =
      ("https://" ++ host ++ ("/" ++ encodePathPreservingSlashes key) ++ "?" ++
        (t1 ++ t2 ++ t3)) from
    data_ext _ _ (by simp [data_append, List.append_assoc])]
  exact extractKey_presigned bucket key host (t1 ++ t2 ++ t3)
    hkne hkhead hdots hbucket hhostne hhost

/-- Claim C2 (corrected): for an identifier that is non-empty, does not start
with a slash, produces no single-dot or double-dot path segment in
<id>.mp4, is not shadowed by a leading <bucket>/ prefix, and a well-formed
host, extracting the object key from the URL produced by signing for that
identifier yields exactly <id>.mp4. -/
theorem C2_roundtrip (crypto : SigCrypto)
    (akid secret bucket host date datetime id : String)
    (hid : id ≠ "")
    (hhead : id.data.head? ≠ some '/')
    (hdots : ∀ seg ∈ splitOnSlash (id ++ ".mp4").data, seg ≠ ['.'] ∧ seg ≠ ['.', '.'])
    (hbucket : ((bucket ++ "/").data.isPrefixOf (id ++ ".mp4").data) = false)
    (hhostne : host ≠ "")
    (hhost : ∀ c ∈ host.data, isAuthorityEnd c = false) :
    signThenExtract crypto akid secret bucket host date datetime id =
      some (id ++ ".mp4") := by
  have htr : jsTruthy (some id) = true := by simp [jsTruthy, hid]
  have hkne := mp4_ne_empty id
  have hra : resolveAndSign crypto akid secret bucket host date datetime (some id) none =
      presignGet crypto akid secret host date datetime (id ++ ".mp4") 604800 := by
    rw [resolveAndSign, htr]
    simp only [if_true]
    show (if (id ++ ".mp4") = "" then
        (.error "Error: Provide either \x27id\x27 or \x27url\x27" : Except String String)
      else presignGet crypto akid secret host date datetime (id ++ ".mp4") 604800) = _
    rw [if_neg hkne]
  have hsig : ∃ sig, presignGet crypto akid secret host date datetime (id ++ ".mp4") 604800 =
      .ok ("https://" ++ host ++ ("/" ++ encodePathPreservingSlashes (id ++ ".mp4")) ++ "?" ++
        canonicalQuery (akid ++ "/" ++ (date ++ "/auto/s3/aws4_request")) datetime 604800 ++
        "&X-Amz-Signature=" ++ sig) :=
    ⟨_, by rw [presignGet, if_neg hkne, if_neg (by omega)]⟩
  obtain ⟨sig, hsig⟩ := hsig
  rw [signThenExtract, hra, hsig]
  show extractKeyFromUrl bucket
      ("https://" ++ host ++ ("/" ++ encodePathPreservingSlashes (id ++ ".mp4")) ++ "?" ++
        canonicalQuery (akid ++ "/" ++ (date ++ "/auto/s3/aws4_request")) datetime 604800 ++
        "&X-Amz-Signature=" ++ sig) = some (id ++ ".mp4")
  apply extractKey_presigned3
  · rw [data_append]
    simp
  · rw [data_append]
    rcases hd : id.data with _ | ⟨c0, r⟩
    · exact absurd hd (str_ne_data id hid)
    · rw [List.cons_append]
      rw [hd] at hhead
      simpa using hhead
  · exact hdots
  · exact hbucket
  · exact str_ne_data host hhostne
  · exact hhost

set_option maxRecDepth 16000 in
/-- Claim C2, counterexample to the unconditional statement: for the
identifier vids/clip with bucket vids, the round trip returns clip.mp4, not
vids/clip.mp4: the URL pathname /vids/clip.mp4 matches the bucket-prefix
strip of extractKeyFromUrl. -/
theorem C2_counterexample :
    signThenExtract ⟨fun _ => "h", fun _ _ => "m", fun _ => "x"⟩ "AK" "SK" "vids"
        "r2.example.com" "20250101" "20250101T000000Z" "vids/clip" ≠
      some ("vids/clip" ++ ".mp4") := by
  decide

set_option maxRecDepth 16000 in
/-- Witness for C2: the identifier clip1 satisfies every hypothesis and
round-trips to clip1.mp4. -/
theorem C2_roundtrip_witness :
    signThenExtract ⟨fun _ => "h", fun _ _ => "m", fun _ => "x"⟩ "AK" "SK" "bkt"
        "r2.example.com" "20250101" "20250101T000000Z" "clip1" =
      some ("clip1" ++ ".mp4") :=
  C2_roundtrip ⟨fun _ => "h", fun _ _ => "m", fun _ => "x"⟩ "AK" "SK" "bkt"
    "r2.example.com" "20250101" "20250101T000000Z" "clip1"
    (by decide) (by decide) (by decide) (by decide) (by decide) (by decide)

end R2T
